import Mathlib

/-!
Verification of the task scheduling and background worker subsystem of
`simple_llm_webui` (files `app/tasks.py` and `app/llm.py`), shallowly
embedded in Lean.

Conventions of the embedding:
* Python JSON-like values are modelled by the inductive `Json`.
  A dict key that is absent is modelled by `Option.none` where the code
  uses `.get`; a key present with value `None` is `some Json.null`.
* Timestamps produced by `utcnow()` are ISO-8601 strings whose
  lexicographic order coincides with chronological order; they are
  modelled as `Nat` in the Task Service model.
* `uuid4().hex` draws are modelled by an explicit `Nat` supply threaded
  through the functions that draw fresh identifiers.
* `multiprocessing.Queue` is modelled as a Lean list: `put` appends at
  the tail, `get` removes at the head (FIFO, which is the documented
  behaviour of `multiprocessing.Queue`).
-/


/-- JSON-like Python value (dicts keep insertion order, as CPython does). -/
inductive Json : Type where
  | null : Json
  | bool (b : Bool) : Json
  | num (n : Int) : Json
  | str (s : String) : Json
  | arr (items : List Json) : Json
  | obj (fields : List (String × Json)) : Json

/-- Python truthiness of a JSON-like value (`None`, `False`, `0`, `""`,
`[]` and `\x7b\x7d` are falsy). -/
def pyTruthy : Json → Bool
  | .null => false
  | .bool b => b
  | .num n => n != 0
  | .str s => s.length != 0
  | .arr items => items.length != 0
  | .obj fields => fields.length != 0

/-- Association-list lookup (first binding wins), modelling dict lookup. -/
def alookup {α : Type} (k : String) : List (String × α) → Option α
  | [] => none
  | (k0, v) :: rest => if k0 = k then some v else alookup k rest

/-- Dict assignment `d[k] = v`: replaces in place when the key exists
(keeping its position, as CPython dicts do), appends otherwise. -/
def dictSet {α : Type} (k : String) (v : α) : List (String × α) → List (String × α)
  | [] => [(k, v)]
  | (k0, v0) :: rest => if k0 = k then (k, v) :: rest else (k0, v0) :: dictSet k v rest

/-- Models `d.get(k)` on a dict value; `none` when the value is not a dict or the
key is absent. -/
def objGet (j : Json) (k : String) : Option Json :=
  match j with
  | .obj fields => alookup k fields
  | _ => none

/-- Models `d.get(k)` returning Python `None` (i.e. `Json.null`) when absent. -/
def dictGet (j : Json) (k : String) : Json :=
  (objGet j k).getD .null

def openBrace : Char := Char.ofNat 123

def closeBrace : Char := Char.ofNat 125

/-- Join a list of strings with a separator. -/
def joinSep (sep : String) : List String → String
  | [] => ""
  | [s] => s
  | s :: rest => s ++ sep ++ joinSep sep rest

/-- Minimal JSON string escaping (quote and backslash; the inputs relevant
here are ASCII without control characters). -/
def escapeJsonChar (c : Char) : String :=
  if c = '"' then "\\\"" else if c = '\\' then "\\\\" else String.singleton c

def escapeJsonString (s : String) : String :=
  String.join (s.toList.map escapeJsonChar)

mutual

/-- Models `json.dumps` with the default separators, restricted to the `Json`
universe (every `Json` value is serialisable, so the `TypeError` branches
guarded by `json.dumps` in the Python code are dead in the model). -/
def jsonDumps : Json → String
  | .null => "null"
  | .bool b => if b then "true" else "false"
  | .num n => toString n
  | .str s => "\"" ++ escapeJsonString s ++ "\""
  | .arr items => "[" ++ jsonDumpsList items ++ "]"
  | .obj fields => String.singleton openBrace ++ jsonDumpsFields fields ++ String.singleton closeBrace

def jsonDumpsList : List Json → String
  | [] => ""
  | [j] => jsonDumps j
  | j :: rest => jsonDumps j ++ ", " ++ jsonDumpsList rest

def jsonDumpsFields : List (String × Json) → String
  | [] => ""
  | [(k, v)] => "\"" ++ escapeJsonString k ++ "\": " ++ jsonDumps v
  | (k, v) :: rest => "\"" ++ escapeJsonString k ++ "\": " ++ jsonDumps v ++ ", " ++ jsonDumpsFields rest

end

mutual

/-- Python `repr` of a JSON-like value (containers print their elements
with `repr`, strings quoted; modelled for ASCII payloads without escape
sequences). -/
def pyReprAux : Json → String
  | .null => "None"
  | .bool b => if b then "True" else "False"
  | .num n => toString n
  | .str s => "\x27" ++ s ++ "\x27"
  | .arr items => "[" ++ pyReprList items ++ "]"
  | .obj fields => String.singleton openBrace ++ pyReprFields fields ++ String.singleton closeBrace

def pyReprList : List Json → String
  | [] => ""
  | [j] => pyReprAux j
  | j :: rest => pyReprAux j ++ ", " ++ pyReprList rest

def pyReprFields : List (String × Json) → String
  | [] => ""
  | [(k, v)] => "\x27" ++ k ++ "\x27: " ++ pyReprAux v
  | (k, v) :: rest => "\x27" ++ k ++ "\x27: " ++ pyReprAux v ++ ", " ++ pyReprFields rest

end

/-- Python `str()` of a JSON-like value. -/
def pyStr : Json → String
  | .null => "None"
  | .bool b => if b then "True" else "False"
  | .num n => toString n
  | .str s => s
  | .arr items => pyReprAux (.arr items)
  | .obj fields => pyReprAux (.obj fields)

/-! ### Stable insertion sort

`list.sort(key=..., reverse=...)` in Python is a stable sort.  `sortLe le`
is a stable insertion sort: an element is inserted before the first
element `y` with `le x y`; with `le x y := key y ≤ key x` this yields the
stable descending sort used by `_trim_completed_tasks` and `prune`. -/

def insLe (le : α → α → Bool) (x : α) : List α → List α
  | [] => [x]
  | y :: ys => if le x y then x :: y :: ys else y :: insLe le x ys

def sortLe (le : α → α → Bool) : List α → List α
  | [] => []
  | x :: xs => insLe le x (sortLe le xs)

/-! ### Task Service (`app/tasks.py`)

`TaskService` holds the in-memory `TaskRecord` table (a CPython dict,
modelled as an insertion-ordered association list with unique keys), the
monotone sequence counter `itertools.count()`, the cross-process task
queue and event channel (both `multiprocessing.Queue`, i.e. FIFO lists
here), and the `_needs_summary` set. -/

def PRIORITY_HIGH : Int := 0

def PRIORITY_NORMAL : Int := 5

def PRIORITY_LOW : Int := 10

structure TaskRecord where
  id : String
  kind : String
  conversation_id : Option String
  priority : Int
  status : String
  created_at : Nat
  updated_at : Nat
  description : String
  detail : Option String
  agent : Option String
  started_at : Option Nat
deriving DecidableEq

/-- The wire payload placed on the task queue by `enqueue_raw`. -/
structure QueuePayload where
  task_id : String
  kind : String
  conversation_id : Option String
  payload : Json

/-- An event posted by `_post_event` on the event channel.  `status`,
`timestamp` and `message` are read with `.get` and a default in
`drain_events`, hence `Option`; `data` defaults to the empty dict. -/
structure EventMsg where
  task_id : String
  status : Option String
  timestamp : Option Nat
  message : Option String
  data : Json

structure TaskService where
  tasks : List (String × TaskRecord)
  counter : Nat
  task_queue : List (Int × Nat × QueuePayload)
  event_queue : List EventMsg
  needs_summary : List String

def svcInit : TaskService :=
  { tasks := [], counter := 0, task_queue := [], event_queue := [], needs_summary := [] }

/-- Models `multiprocessing.Queue.put`: appends at the tail. -/
def mpQueuePut {α : Type} (q : List α) (x : α) : List α := q ++ [x]

/-- Models `multiprocessing.Queue.get`: removes at the head (FIFO). -/
def mpQueueGet {α : Type} : List α → Option (α × List α)
  | [] => none
  | x :: rest => some (x, rest)

/-- The sequence of items that successive `task_queue.get()` calls by the
worker return: repeated `mpQueueGet` until the queue is empty. -/
def dequeueOrder {α : Type} (q : List α) : List α :=
  match h : mpQueueGet q with
  | none => []
  | some (y, rest) => y :: dequeueOrder rest
termination_by q.length
decreasing_by
  cases q with
  | nil => simp [mpQueueGet] at h
  | cons a as =>
      simp only [mpQueueGet] at h
      cases h
      simp

/-- Models `TaskService.enqueue_raw`: creates a `TaskRecord`, stores it in the
task table and puts `(priority, order, queue_payload)` on the task queue.
`uuid4().hex` and `utcnow()` are supplied by the caller as `task_id` and
`now`. -/
def enqueueRaw (s : TaskService) (kind : String) (priority : Int)
    (conversation_id : Option String) (payload : Json) (description : String)
    (agent : Option String) (task_id : String) (now : Nat) :
    TaskService × String :=
  let record : TaskRecord :=
    { id := task_id, kind := kind, conversation_id := conversation_id,
      priority := priority, status := "queued", created_at := now,
      updated_at := now, description := description, detail := none,
      agent := agent, started_at := none }
  let order := s.counter
  let queue_payload : QueuePayload :=
    { task_id := task_id, kind := kind, conversation_id := conversation_id, payload := payload }
  ({ s with tasks := dictSet task_id record s.tasks,
            counter := s.counter + 1,
            task_queue := mpQueuePut s.task_queue (priority, order, queue_payload) },
   task_id)

/-- Models `TaskService.mark_summary_needed` (a Python set insertion). -/
def markSummaryNeeded (needs : List String) (cid : String) : List String :=
  if cid ∈ needs then needs else needs ++ [cid]

def pyTruthyOptStr : Option String → Bool
  | some c => c.length != 0
  | none => false

/-- One step of the `drain_events` loop body applied to a single event:
events whose `task_id` has no record are skipped; otherwise the record is
updated in place and a truthy `data.requires_summary` marks the
conversation. -/
def applyEvent (now : Nat) (acc : List (String × TaskRecord) × List String)
    (e : EventMsg) : List (String × TaskRecord) × List String :=
  let tasks := acc.1
  let needs := acc.2
  match alookup e.task_id tasks with
  | none => (tasks, needs)
  | some record =>
      let status := e.status.getD record.status
      let timestamp := e.timestamp.getD now
      let startedAt :=
        if status = "running" && record.started_at == none then some timestamp
        else record.started_at
      let record1 : TaskRecord :=
        { record with status := status, updated_at := timestamp,
                      detail := e.message, started_at := startedAt }
      let tasks1 := dictSet e.task_id record1 tasks
      let needs1 :=
        if pyTruthy (dictGet e.data "requires_summary")
            && pyTruthyOptStr record1.conversation_id then
          markSummaryNeeded needs (record1.conversation_id.getD "")
        else needs
      (tasks1, needs1)

/-- The comparator used by `sort(key=lambda r: r.updated_at, reverse=True)`:
`a` may precede `b` when `b.updated_at ≤ a.updated_at` (stable descending
sort by `updated_at`). -/
def updLe (a b : String × TaskRecord) : Bool :=
  decide (b.2.updated_at ≤ a.2.updated_at)

def completedOf (tasks : List (String × TaskRecord)) : List (String × TaskRecord) :=
  tasks.filter (fun p => p.2.status == "completed")

/-- Models `_trim_completed_tasks`, step 1: pop every `failed` record. -/
def trimT1 (tasks : List (String × TaskRecord)) : List (String × TaskRecord) :=
  tasks.filter (fun p => p.2.status != "failed")

/-- Models `_trim_completed_tasks`, step 2: the ids of the `completed` records
beyond the 2 most-recently-updated ones (`completed[2:]` after the stable
descending sort). -/
def trimDropIds (tasks : List (String × TaskRecord)) : List String :=
  ((sortLe updLe (completedOf (trimT1 tasks))).drop 2).map (fun p => p.1)

/-- Models `TaskService._trim_completed_tasks`: drops every `failed` record, then
keeps only the 2 most-recently-updated `completed` records. -/
def trimCompletedTasks (tasks : List (String × TaskRecord)) :
    List (String × TaskRecord) :=
  (trimT1 tasks).filter (fun p => decide (¬ p.1 ∈ trimDropIds tasks))

/-- Models `TaskService.prune`, retained ids: the `maxItems` most-recently-updated
records overall. -/
def pruneKeepIds (maxItems : Nat) (tasks : List (String × TaskRecord)) :
    List String :=
  ((sortLe updLe tasks).take maxItems).map (fun p => p.1)

/-- Models `TaskService.prune`: when more than `maxItems` records exist, retain
the `maxItems` most-recently-updated ones.  CPython rebuilds the dict by
iterating over the retained-id set, whose order is unspecified; the model
keeps the original insertion order (one admissible order — no claim below
depends on the table order). -/
def prune (maxItems : Nat) (tasks : List (String × TaskRecord)) :
    List (String × TaskRecord) :=
  if tasks.length ≤ maxItems then tasks
  else tasks.filter (fun p => decide (p.1 ∈ pruneKeepIds maxItems tasks))

/-- Models `TaskService.drain_events`: pulls all currently queued events, applies
them to the task table, and — when at least one event was pulled — trims
completed/failed tasks and prunes to 20 records. -/
def drainEvents (now : Nat) (s : TaskService) : TaskService :=
  match s.event_queue with
  | [] => s
  | evs =>
      let applied := evs.foldl (applyEvent now) (s.tasks, s.needs_summary)
      { s with tasks := prune 20 (trimCompletedTasks applied.1),
               needs_summary := applied.2,
               event_queue := [] }

/-- Models `TaskService.snapshot`: trims, then returns the records sorted by
(`completed` last, `priority` ascending, `updated_at` ascending); the
trimmed table replaces the old one. -/
def snapLe (a b : TaskRecord) : Bool :=
  let ka : Nat := if a.status == "completed" then 1 else 0
  let kb : Nat := if b.status == "completed" then 1 else 0
  if ka != kb then ka < kb
  else if a.priority != b.priority then a.priority < b.priority
  else a.updated_at ≤ b.updated_at

def snapshot (s : TaskService) : TaskService × List TaskRecord :=
  let tasks1 := trimCompletedTasks s.tasks
  ({ s with tasks := tasks1 }, sortLe snapLe (tasks1.map (fun p => p.2)))

/-! ### Claim C1 — task queue ordering -/

/-- One `enqueue_raw` request (the caller-chosen arguments plus the
externally drawn `uuid4().hex` and `utcnow()` values). -/
structure EnqReq where
  kind : String
  priority : Int
  conversation_id : Option String
  payload : Json
  description : String
  agent : Option String
  task_id : String
  now : Nat

def enqueueAll (s : TaskService) : List EnqReq → TaskService
  | [] => s
  | r :: rest =>
      enqueueAll (enqueueRaw s r.kind r.priority r.conversation_id r.payload
        r.description r.agent r.task_id r.now).1 rest

/-- The queue items that a request list contributes, starting from
sequence counter `c`. -/
def queueItems (c : Nat) : List EnqReq → List (Int × Nat × QueuePayload)
  | [] => []
  | r :: rest =>
      (r.priority, c,
        ⟨r.task_id, r.kind, r.conversation_id, r.payload⟩) :: queueItems (c + 1) rest

/-- The ordering the claim asserts: every dequeued pair is in ascending
`(priority, sequence_number)` lexicographic order. -/
def PriorityOrderedDequeue (q : List (Int × Nat × QueuePayload)) : Prop :=
  List.Pairwise
    (fun a b => a.1 < b.1 ∨ (a.1 = b.1 ∧ a.2.1 ≤ b.2.1))
    (dequeueOrder q)

/-- Concrete run: a normal-priority completion is enqueued first, then a
high-priority (priority 0) task. -/
def c1Service : TaskService :=
  let s1 := (enqueueRaw svcInit "completion" PRIORITY_NORMAL (some "conv1")
    (.obj []) "Generate reply (default)" (some "default") "aaaa1111" 0).1
  (enqueueRaw s1 "shutdown" PRIORITY_HIGH none
    (.obj []) "Shutdown worker." none "bbbb2222" 1).1

/-! ### Claims C5 and C9 — retention invariants of the task table -/

def idsOf (tasks : List (String × TaskRecord)) : List String :=
  tasks.map (fun p => p.1)

/-- Well-formedness of the CPython dict model: keys are unique. -/
def TasksWF (tasks : List (String × TaskRecord)) : Prop := (idsOf tasks).Nodup

def NoFailed (tasks : List (String × TaskRecord)) : Prop :=
  ∀ p ∈ tasks, p.2.status ≠ "failed"

def CompletedCount (tasks : List (String × TaskRecord)) : Nat :=
  (completedOf tasks).length

/-- Every `completed` record kept in `kept` is at least as recently
updated as every `completed` record of `source` that is absent (by id)
from `kept`. -/
def CompletedRetention (kept source : List (String × TaskRecord)) : Prop :=
  ∀ p ∈ kept, p.2.status = "completed" →
    ∀ q ∈ source, q.2.status = "completed" → ¬ q.1 ∈ idsOf kept →
      q.2.updated_at ≤ p.2.updated_at

/-- C5 core statement packaged for reuse in the witness. -/
def TableInvariant (kept source : List (String × TaskRecord)) : Prop :=
  NoFailed kept ∧ CompletedCount kept ≤ 2 ∧ CompletedRetention kept source

def mkRecord (id : String) (status : String) (upd : Nat) : TaskRecord :=
  { id := id, kind := "completion", conversation_id := some "c",
    priority := 5, status := status, created_at := 0, updated_at := upd,
    description := "Generate reply", detail := none, agent := none,
    started_at := none }

/-- A concrete service state: three completed records, one failed record,
and one pending `completed` event on the channel. -/
def c5S : TaskService :=
  { tasks := [("t1", mkRecord "t1" "completed" 3),
              ("t2", mkRecord "t2" "completed" 5),
              ("t3", mkRecord "t3" "failed" 6),
              ("t4", mkRecord "t4" "queued" 1)],
    counter := 4,
    task_queue := [],
    event_queue := [{ task_id := "t4", status := some "completed",
                      timestamp := some 9,
                      message := some "Task completed successfully.",
                      data := .obj [("requires_summary", .bool true)] }],
    needs_summary := [] }

/-! ### Claim C9 — events for unknown task ids are discarded -/

/-- Each stored record's `id` field equals its dict key (established by
`enqueue_raw`, which stores the record under its own fresh id). -/
def KeyCoherent (tasks : List (String × TaskRecord)) : Prop :=
  ∀ p ∈ tasks, p.2.id = p.1

/-- The bootstrap failure event as `_worker_main` posts it. -/
def bootstrapEvent : EventMsg :=
  { task_id := "bootstrap", status := some "failed",
    message := some "Custom tool registration failed: err",
    timestamp := some 7, data := .obj [] }

def c9S : TaskService :=
  { tasks := [("t1", mkRecord "t1" "queued" 3)],
    counter := 1, task_queue := [],
    event_queue := [bootstrapEvent],
    needs_summary := [] }

/-! ### Claim C6 — Idle Monitor edge-triggered callbacks

`IdleMonitor.loop` wakes every `interval` seconds; each tick compares the
time elapsed since `_last_activity` with the timeout and flips the `_idle`
flag on edge transitions only, invoking `on_idle` / `on_active` exactly at
those flips.  A tick is modelled by the elapsed time it observes
(`time.monotonic() - _last_activity`, as a `Nat`); the step returns the new
flag plus whether each callback was invoked on that tick. -/

structure IdleTick where
  newIdle : Bool
  firedOnIdle : Bool
  firedOnActive : Bool
deriving DecidableEq

/-- One iteration of the `while True` body of `IdleMonitor.loop`. -/
def idleStep (timeout : Nat) (idle : Bool) (elapsed : Nat) : IdleTick :=
  if timeout < elapsed then
    if idle = false then ⟨true, true, false⟩
    else ⟨true, false, false⟩
  else
    if idle = true then ⟨false, false, true⟩
    else ⟨false, false, false⟩

/-- The trace of a whole run of the loop over a sequence of observed
elapsed times. -/
def idleRun (timeout : Nat) (idle : Bool) : List Nat → List IdleTick
  | [] => []
  | e :: rest =>
      let t := idleStep timeout idle e
      t :: idleRun timeout t.newIdle rest

def countOnIdle (ts : List IdleTick) : Nat :=
  (ts.filter (fun t => t.firedOnIdle)).length

def countOnActive (ts : List IdleTick) : Nat :=
  (ts.filter (fun t => t.firedOnActive)).length

/-- The number of false→true transitions of the idle flag along a trace
starting from `idle`. -/
def countRises (idle : Bool) : List IdleTick → Nat
  | [] => 0
  | t :: rest =>
      (if idle = false ∧ t.newIdle = true then 1 else 0) + countRises t.newIdle rest

def countFalls (idle : Bool) : List IdleTick → Nat
  | [] => 0
  | t :: rest =>
      (if idle = true ∧ t.newIdle = false then 1 else 0) + countFalls t.newIdle rest

/-! ### `app/llm.py` — assistant-message unpacking

`unpack_assistant_message` compiles the pattern

  `r"<(think|reasoning|thought)>(.*?)</\\1>"`  (IGNORECASE | DOTALL)

In a Python raw string, `\\1` is a backslash-escaped backslash followed by
the character `1`, so the closing delimiter the regex matches is the
five-character literal `</\1>` — NOT a backreference to the opening tag.
The matcher below reproduces exactly that: an opening tag
`<think>`/`<reasoning>`/`<thought>` (case-insensitive), a minimal body
(DOTALL), then the literal `</\1>`. -/

/-- Match a pattern at the head of the input using the supplied character
comparison; returns the rest of the input on success. -/
def matchSeq (eq : Char → Char → Bool) : List Char → List Char → Option (List Char)
  | [], cs => some cs
  | _ :: _, [] => none
  | p :: ps, c :: cs => if eq p c then matchSeq eq ps cs else none

def ciEq (p c : Char) : Bool := p.toLower == c.toLower

/-- The literal closing delimiter `</\1>` produced by the double backslash
in the raw-string pattern. -/
def closeLit : List Char := ['<', '/', '\\', '1', '>']

/-- Try to match `<tag>` (case-insensitive) at the head of the input. -/
def tryOpenTag (tag : String) (cs : List Char) : Option (List Char) :=
  match cs with
  | '<' :: rest => matchSeq ciEq (tag.toList ++ ['>']) rest
  | _ => none

/-- The alternation `(think|reasoning|thought)` after a `<`. -/
def matchOpen (cs : List Char) : Option (List Char) :=
  match tryOpenTag "think" cs with
  | some r => some r
  | none =>
      match tryOpenTag "reasoning" cs with
      | some r => some r
      | none => tryOpenTag "thought" cs

/-- Lazy `(.*?)` up to the literal `</\1>`: the shortest body followed by
the closing literal; `none` when the literal never occurs. -/
def splitAtCloseLit : List Char → Option (List Char × List Char)
  | [] => none
  | c :: cs =>
      match matchSeq (fun a b => a == b) closeLit (c :: cs) with
      | some rest => some ([], rest)
      | none =>
          match splitAtCloseLit cs with
          | some (body, rest) => some (c :: body, rest)
          | none => none

def isPySpace (c : Char) : Bool :=
  c == ' ' || c == '\t' || c == '\n' || c == '\r'
    || c == Char.ofNat 11 || c == Char.ofNat 12

/-- Python `str.strip()` (ASCII whitespace). -/
def asciiStripList (cs : List Char) : List Char :=
  ((cs.dropWhile isPySpace).reverse.dropWhile isPySpace).reverse

def asciiStrip (s : String) : String :=
  String.mk (asciiStripList s.toList)

/-- Models `chain_pattern.sub(_capture, text)`: scan left to right; at each
position try the opening alternation and then the closing literal; on a
match drop the whole span, record the stripped body when nonempty, and
continue after the match.  Fuel is structural (any `fuel > cs.length`
is enough, since every step consumes at least one character). -/
def chainSubF : Nat → List Char → List Char × List String
  | 0, cs => (cs, [])
  | Nat.succ _, [] => ([], [])
  | Nat.succ n, c :: cs =>
      match matchOpen (c :: cs) with
      | some afterOpen =>
          match splitAtCloseLit afterOpen with
          | some (body, rest) =>
              let r := chainSubF n rest
              let snippet := asciiStrip (String.mk body)
              if snippet.length != 0 then (r.1, snippet :: r.2) else (r.1, r.2)
          | none =>
              let r := chainSubF n cs
              (c :: r.1, r.2)
      | none =>
          let r := chainSubF n cs
          (c :: r.1, r.2)

/-- Models `strip_chain_markup` of `unpack_assistant_message`, returning the
cleaned text and the reasoning snippets it captured (in order). -/
def stripChainMarkup (text : String) : String × List String :=
  if text.length = 0 then ("", [])
  else
    let r := chainSubF (text.toList.length + 1) text.toList
    (String.mk r.1, r.2)

mutual

/-- Size bound used as fuel for the recursions over nested `Json`. -/
def jsonSize : Json → Nat
  | .null => 1
  | .bool _ => 1
  | .num _ => 1
  | .str _ => 1
  | .arr items => 1 + jsonSizeList items
  | .obj fields => 1 + jsonSizeFields fields

def jsonSizeList : List Json → Nat
  | [] => 0
  | j :: rest => 1 + jsonSize j + jsonSizeList rest

def jsonSizeFields : List (String × Json) → Nat
  | [] => 0
  | (_, v) :: rest => 1 + jsonSize v + jsonSizeFields rest

end

/-- Models `value.get("text") or value.get("content")` (Python truthiness). -/
def pickTextContent (fields : List (String × Json)) : Json :=
  let t := (alookup "text" fields).getD .null
  if pyTruthy t then t else (alookup "content" fields).getD .null

mutual

/-- Models `append_reasoning` of `unpack_assistant_message` (the snippets a value
contributes, in order).  Fuel-based: any fuel above the nesting size is
enough. -/
def appendReasoningF : Nat → Json → List String
  | 0, _ => []
  | Nat.succ n, v =>
      match v with
      | .null => []
      | .str s =>
          let c := asciiStrip s
          if c.length != 0 then [c] else []
      | .obj fields => appendReasoningF n (pickTextContent fields)
      | .arr items => appendReasoningListF n items
      | .bool b => [pyStr (.bool b)]
      | .num m => [pyStr (.num m)]

def appendReasoningListF : Nat → List Json → List String
  | 0, _ => []
  | Nat.succ _, [] => []
  | Nat.succ n, j :: rest => appendReasoningF n j ++ appendReasoningListF n rest

end

def appendReasoning (v : Json) : List String :=
  appendReasoningF (jsonSize v + 1) v

mutual

/-- Models `_collect` of `normalise_reasoning_content`. -/
def collectF : Nat → Json → List String
  | 0, _ => []
  | Nat.succ n, v =>
      match v with
      | .null => []
      | .str s =>
          let c := asciiStrip s
          if c.length != 0 then [c] else []
      | .obj fields =>
          match alookup "text" fields with
          | some w => collectF n w
          | none =>
              match alookup "content" fields with
              | some w => collectF n w
              | none =>
                  match alookup "message" fields with
                  | some w => collectF n w
                  | none => [jsonDumps (.obj fields)]
      | .arr items => collectListF n items
      | .bool b => [pyStr (.bool b)]
      | .num m => [pyStr (.num m)]

def collectListF : Nat → List Json → List String
  | 0, _ => []
  | Nat.succ _, [] => []
  | Nat.succ n, j :: rest => collectF n j ++ collectListF n rest

end

/-- Models `normalise_reasoning_content`: depth-first flattening followed by the
final `if entry.strip()` filter. -/
def normaliseReasoningContent (v : Json) : List String :=
  (collectF (jsonSize v + 1) v).filter (fun e => (asciiStrip e).length != 0)

/-- Models `strip_chain_markup` applied to `block.get("text", "")`: a falsy value
returns `""` immediately (`if not text`); a truthy non-string would raise
`TypeError` inside `re.sub` in Python — a path unreachable for well-formed
payloads, modelled by `str()` coercion. -/
def stripChainArg (v : Json) : String × List String :=
  if pyTruthy v then
    stripChainMarkup (pyStr v)
  else ("", [])

/-- One content block of a list-valued assistant `content`. -/
def processBlock (block : Json) : List String × List String :=
  match block with
  | .obj fields =>
      match (alookup "type" fields).getD .null with
      | .str "reasoning" => ([], appendReasoning (pickTextContent fields))
      | .str "analysis" => ([], appendReasoning (pickTextContent fields))
      | .str "text" =>
          let r := stripChainArg ((alookup "text" fields).getD (.str ""))
          let stripped := asciiStrip r.1
          (if stripped.length != 0 then [stripped] else [], r.2)
      | .str "tool_call" => ([], [])
      | _ =>
          let r := stripChainMarkup (jsonDumps (.obj fields))
          let stripped := asciiStrip r.1
          (if stripped.length != 0 then [stripped] else [], r.2)
  | other =>
      let r := stripChainMarkup (pyStr other)
      let stripped := asciiStrip r.1
      (if stripped.length != 0 then [stripped] else [], r.2)

def processBlocks : List Json → List String × List String
  | [] => ([], [])
  | block :: rest =>
      let r := processBlock block
      let r2 := processBlocks rest
      (r.1 ++ r2.1, r.2 ++ r2.2)

/-- Models `unpack_assistant_message`: returns (visible text, reasoning snippets,
structured reasoning content). -/
def unpackAssistantMessage (message : Json) : String × List String × List String :=
  let content := dictGet message "content"
  let cpair : List String × List String :=
    match content with
    | .arr blocks => processBlocks blocks
    | .str s =>
        let r := stripChainMarkup s
        let stripped := asciiStrip r.1
        (if stripped.length != 0 then [stripped] else [], r.2)
    | .null => ([], [])
    | other =>
        let r := stripChainMarkup (jsonDumps other)
        let stripped := asciiStrip r.1
        (if stripped.length != 0 then [stripped] else [], r.2)
  let rsegs := cpair.2 ++ appendReasoning (dictGet message "reasoning")
  let rc := normaliseReasoningContent (dictGet message "reasoning_content")
  let text := joinSep "\n" (cpair.1.filter (fun seg => seg.length != 0))
  let reasoningOutput :=
    ((rsegs.filter (fun s => s.length != 0 && (asciiStrip s).length != 0)).map
      asciiStrip)
  (asciiStrip text, reasoningOutput, rc)

/-! ### `_build_message_history` and `_normalise_messages` (`app/tasks.py`)

A conversation-log entry is a dict with `id`, `timestamp`, `role`, `type`,
`content` (plus `ordering`/`tags`, unused here).  `role`, `type` and
`content` are read with `.get`, hence `Option Json` (a key present with
value `None` is `some .null`).  A wire chat message is a dict with the
keys below; `Option` models key presence. -/

structure Entry where
  id : String
  timestamp : String
  role : Option Json
  type : Option Json
  content : Option Json

structure FuncSpec where
  name : Option Json
  arguments : Option Json

structure WireToolCall where
  id : Json
  type : String
  function : Option FuncSpec

structure WireMsg where
  role : Json
  content : Option Json
  tool_calls : Option (List WireToolCall)
  tool_call_id : Option Json
  name : Option Json

/-- Models `uuid4().hex` draws, modelled by a counter-indexed name. -/
def freshHex (n : Nat) : String := "uuid" ++ toString n

/-- The tool-call dicts a `completion` entry contributes to its assistant
message: `\x7b"id": call.get("id") or uuid4().hex, "type": "function",
"function": \x7b"name": call.get("name"),
"arguments": json.dumps(call.get("arguments", \x7b\x7d))\x7d\x7d`. -/
def buildToolCalls (supply : Nat) : List Json → List WireToolCall × Nat
  | [] => ([], supply)
  | call :: rest =>
      let idv := dictGet call "id"
      let idAndSupply :=
        if pyTruthy idv then (idv, supply) else (Json.str (freshHex supply), supply + 1)
      let tc : WireToolCall :=
        { id := idAndSupply.1, type := "function",
          function := some
            { name := some (dictGet call "name"),
              arguments :=
                some (.str (jsonDumps ((objGet call "arguments").getD (.obj [])))) } }
      let r := buildToolCalls idAndSupply.2 rest
      (tc :: r.1, r.2)

/-- One iteration of the `for entry in conversation` loop of
`_build_message_history` over the accumulator
`(messages, system_prompt, uuid-supply)`.  A truthy value read from
`content.get("tool_calls") or []` that is not a list would raise in
Python when iterated; it is modelled as the empty list (dead path). -/
def buildStep (acc : List WireMsg × Json × Nat) (entry : Entry) :
    List WireMsg × Json × Nat :=
  match entry.type with
  | some (.str etype) =>
      if etype = "metadata" then
        let v := dictGet (entry.content.getD .null) "system_prompt"
        (acc.1, (if pyTruthy v then v else acc.2.1), acc.2.2)
      else if etype = "label" then acc
      else if etype = "message" then
        (acc.1 ++ [{ role := entry.role.getD .null,
                     content := some (entry.content.getD (.str "")),
                     tool_calls := none, tool_call_id := none, name := none }],
         acc.2.1, acc.2.2)
      else if etype = "completion" then
        let c0 := entry.content.getD .null
        let content := if pyTruthy c0 then c0 else Json.obj []
        let tv := dictGet content "text"
        let textv := if pyTruthy tv then tv else Json.str ""
        let rawCalls :=
          match dictGet content "tool_calls" with
          | .arr l => l
          | _ => []
        let built := buildToolCalls acc.2.2 rawCalls
        let msg : WireMsg :=
          { role := entry.role.getD (.str "assistant"),
            content := some textv,
            tool_calls := if built.1.length != 0 then some built.1 else none,
            tool_call_id := none, name := none }
        (acc.1 ++ [msg], acc.2.1, built.2)
      else if etype = "tool_result" then
        let c0 := entry.content.getD .null
        let content := if pyTruthy c0 then c0 else Json.obj []
        (acc.1 ++ [{ role := .str "tool",
                     content :=
                       some (.str (jsonDumps ((objGet content "result").getD (.obj [])))),
                     tool_calls := none,
                     tool_call_id := some (dictGet content "tool_call_id"),
                     name := some (dictGet content "tool") }],
         acc.2.1, acc.2.2)
      else acc
  | _ => acc

/-- The system message prepended when the resolved prompt is truthy. -/
def systemMsg (sp : Json) : WireMsg :=
  { role := .str "system", content := some sp,
    tool_calls := none, tool_call_id := none, name := none }

/-- Models `_build_message_history(conversation, default_system_prompt)`,
returning `(messages, system_prompt)` plus the final uuid supply. -/
def buildMessageHistory (conversation : List Entry)
    (defaultSystemPrompt : String) (supply : Nat) :
    List WireMsg × Json × Nat :=
  let r := conversation.foldl buildStep ([], Json.str defaultSystemPrompt, supply)
  ((if pyTruthy r.2.1 then systemMsg r.2.1 :: r.1 else r.1), r.2.1, r.2.2)

/-- Models `message.get("content", "")` with the `None` check and the
`json.dumps(..., ensure_ascii=False)` fallback of `_normalise_messages`. -/
def normaliseContent : Option Json → String
  | none => ""
  | some .null => ""
  | some (.str s) => s
  | some v => jsonDumps v

/-- The `arguments` coercion of `_normalise_messages`: `None` (or an
absent key) becomes `"\x7b\x7d"`, a string stays, anything else is
serialised. -/
def fixFunction (f : FuncSpec) : FuncSpec :=
  let fixedArgs : Json :=
    match f.arguments with
    | none => Json.str "\x7b\x7d"
    | some .null => Json.str "\x7b\x7d"
    | some (.str s) => Json.str s
    | some v => Json.str (jsonDumps v)
  { f with arguments := some fixedArgs }

/-- Models `call["function"] = function` after `function = call.get("function")
or \x7b\x7d` and the arguments coercion. -/
def fixCall (call : WireToolCall) : WireToolCall :=
  let f := call.function.getD { name := none, arguments := none }
  { call with function := some (fixFunction f) }

def roleIsTool : Json → Bool
  | .str s => s == "tool"
  | _ => false

/-- One message of `_normalise_messages`. -/
def normaliseMsg (m : WireMsg) : WireMsg :=
  let content := normaliseContent m.content
  let toolCalls := m.tool_calls.map (fun l => l.map fixCall)
  let m1 : WireMsg := { m with content := some (.str content), tool_calls := toolCalls }
  if roleIsTool m1.role then
    let fixedName : String :=
      match m1.name with
      | some (.str s) => s
      | some v => pyStr v
      | none => pyStr .null
    { m1 with name := some (.str fixedName) }
  else m1

def normaliseMessages (msgs : List WireMsg) : List WireMsg :=
  msgs.map normaliseMsg

/-- The canonical entry list of the claim:
`[metadata(system_prompt="A"), message(user,"hi"),
metadata(system_prompt="B"), message(user,"there")]`. -/
def c7Example : List Entry :=
  [{ id := "e1", timestamp := "t1", role := some (.str "system"),
     type := some (.str "metadata"),
     content := some (.obj [("system_prompt", .str "A")]) },
   { id := "e2", timestamp := "t2", role := some (.str "user"),
     type := some (.str "message"), content := some (.str "hi") },
   { id := "e3", timestamp := "t3", role := some (.str "system"),
     type := some (.str "metadata"),
     content := some (.obj [("system_prompt", .str "B")]) },
   { id := "e4", timestamp := "t4", role := some (.str "user"),
     type := some (.str "message"), content := some (.str "there") }]

/-- Two metadata entries; the later one carries an empty system prompt. -/
def c7CE : List Entry :=
  [{ id := "e1", timestamp := "t1", role := some (.str "system"),
     type := some (.str "metadata"),
     content := some (.obj [("system_prompt", .str "A")]) },
   { id := "e2", timestamp := "t2", role := some (.str "system"),
     type := some (.str "metadata"),
     content := some (.obj [("system_prompt", .str "")]) }]

/-- A tool-role message with numeric content, a missing name and a tool
call with no `function` dict. -/
def c8Msg : WireMsg :=
  { role := .str "tool", content := some (.num 5),
    tool_calls := some [{ id := .str "call1", type := "function", function := none }],
    tool_call_id := some .null, name := none }

/-! ### `json.loads` — a JSON parser for the argument strings

`_handle_completion` parses tool-call argument strings with
`json.loads`; `JSONDecodeError` maps to `none`.  The parser covers the
JSON the repository traffics in (objects, arrays, strings with the
common escapes, integers, literals); floats and unicode escapes are not
produced by the modelled values. -/

def isJsonWs (c : Char) : Bool :=
  c == ' ' || c == '\t' || c == '\n' || c == '\r'

def skipWs (cs : List Char) : List Char := cs.dropWhile isJsonWs

def unescapeChar (c : Char) : Char :=
  if c = 'n' then '\n' else if c = 't' then '\t'
  else if c = 'r' then '\r' else c

def parseStringBody : List Char → Option (String × List Char)
  | [] => none
  | c :: rest =>
      if c = '"' then some ("", rest)
      else if c = '\\' then
        match rest with
        | [] => none
        | e :: rest2 =>
            match parseStringBody rest2 with
            | some (s, r) => some (String.singleton (unescapeChar e) ++ s, r)
            | none => none
      else
        match parseStringBody rest with
        | some (s, r) => some (String.singleton c ++ s, r)
        | none => none

def digitVal (c : Char) : Nat := c.toNat - 48

def parseDigitsAux : List Char → Nat → Nat × List Char
  | [], acc => (acc, [])
  | c :: rest, acc =>
      if c.isDigit then parseDigitsAux rest (acc * 10 + digitVal c)
      else (acc, c :: rest)

def parseDigits : List Char → Option (Nat × List Char)
  | [] => none
  | c :: rest =>
      if c.isDigit then some (parseDigitsAux rest (digitVal c))
      else none

mutual

def parseValueF : Nat → List Char → Option (Json × List Char)
  | 0, _ => none
  | Nat.succ n, cs0 =>
      match skipWs cs0 with
      | [] => none
      | c :: rest =>
          if c = '"' then
            match parseStringBody rest with
            | some (s, r) => some (.str s, r)
            | none => none
          else if c = openBrace then
            match skipWs rest with
            | c2 :: r2 =>
                if c2 = closeBrace then some (.obj [], r2)
                else
                  match parseMembersF n (skipWs rest) with
                  | some (fields, r3) => some (.obj fields, r3)
                  | none => none
            | [] => none
          else if c = '[' then
            match skipWs rest with
            | c2 :: r2 =>
                if c2 = ']' then some (.arr [], r2)
                else
                  match parseItemsF n (skipWs rest) with
                  | some (items, r3) => some (.arr items, r3)
                  | none => none
            | [] => none
          else if c = 't' then
            match matchSeq (fun a b => a == b) ['r', 'u', 'e'] rest with
            | some r => some (.bool true, r)
            | none => none
          else if c = 'f' then
            match matchSeq (fun a b => a == b) ['a', 'l', 's', 'e'] rest with
            | some r => some (.bool false, r)
            | none => none
          else if c = 'n' then
            match matchSeq (fun a b => a == b) ['u', 'l', 'l'] rest with
            | some r => some (.null, r)
            | none => none
          else if c = '-' then
            match parseDigits rest with
            | some (m, r) => some (.num (-(m : Int)), r)
            | none => none
          else if c.isDigit then
            match parseDigits (c :: rest) with
            | some (m, r) => some (.num (m : Int), r)
            | none => none
          else none

def parseMembersF : Nat → List Char → Option (List (String × Json) × List Char)
  | 0, _ => none
  | Nat.succ n, cs =>
      match cs with
      | [] => none
      | c :: rest =>
          if c = '"' then
            match parseStringBody rest with
            | some (k, r1) =>
                match skipWs r1 with
                | c2 :: r2 =>
                    if c2 = ':' then
                      match parseValueF n r2 with
                      | some (v, r3) =>
                          match skipWs r3 with
                          | c3 :: r4 =>
                              if c3 = ',' then
                                match parseMembersF n (skipWs r4) with
                                | some (fields, r5) => some ((k, v) :: fields, r5)
                                | none => none
                              else if c3 = closeBrace then some ([(k, v)], r4)
                              else none
                          | [] => none
                      | none => none
                    else none
                | [] => none
            | none => none
          else none

def parseItemsF : Nat → List Char → Option (List Json × List Char)
  | 0, _ => none
  | Nat.succ n, cs =>
      match parseValueF n cs with
      | some (v, r1) =>
          match skipWs r1 with
          | c2 :: r2 =>
              if c2 = ',' then
                match parseItemsF n (skipWs r2) with
                | some (items, r3) => some (v :: items, r3)
                | none => none
              else if c2 = ']' then some ([v], r2)
              else none
          | [] => none
      | none => none

end

/-- Models `json.loads`: the whole string must parse as one value (with trailing
whitespace allowed); anything else raises `JSONDecodeError` (`none`). -/
def jsonLoads (s : String) : Option Json :=
  match parseValueF (s.length + 1) s.toList with
  | some (v, rest) => if (skipWs rest).isEmpty then some v else none
  | none => none

/-! ### `_handle_completion` (`app/tasks.py`)

The Model Client is a function from the normalised wire messages to the
response JSON (`LlamaCppError` as `Except.error`); model name, agent and
temperature/context-size resolution only feed that call and are fixed
parameters here.  The Tool Registry maps names to handlers; a handler
exception is `Except.error`.  `uuid4().hex` and `utcnow()` are the
threaded supply and the `now` parameter. -/

def ChatFun : Type := List WireMsg → Except String Json

def ToolRegistry : Type := List (String × (Json → Except String Json))

/-- Models `ToolRegistry.execute`: unregistered names (including the `None` a
missing function name produces) raise; the Python message reads
`Tool '<name>' is not registered.`. -/
def registryExecute (registry : ToolRegistry) (name : Json) (arguments : Json) :
    Except String Json :=
  match name with
  | .str s =>
      match alookup s registry with
      | some handler => handler arguments
      | none => .error ("Tool is not registered: " ++ s)
  | other => .error ("Tool is not registered: " ++ pyStr other)

/-- Models `_ensure_jsonable`: every `Json` value serialises, so the
`TypeError` fallbacks (`value.dict()` / `str(value)`) are dead here. -/
def ensureJsonable (v : Json) : Json := v

/-- Models `(response.get("choices") or [\x7b\x7d])[0]`; a truthy non-list would
raise in Python (dead path). -/
def respChoice (response : Json) : Json :=
  match dictGet response "choices" with
  | .arr (c :: _) => c
  | _ => Json.obj []

/-- Models `choice.get("message") or \x7b\x7d`. -/
def respAssistantMessage (response : Json) : Json :=
  let am0 := dictGet (respChoice response) "message"
  if pyTruthy am0 then am0 else Json.obj []

/-- Models `assistant_message.get("tool_calls") or []`; a truthy non-list would
raise in Python (dead path). -/
def respToolCallsRaw (response : Json) : List Json :=
  match dictGet (respAssistantMessage response) "tool_calls" with
  | .arr l => l
  | _ => []

structure FormattedCall where
  id : Json
  name : Json
  arguments : Json

/-- The `formatted_calls` loop: parse each wire tool call; malformed
argument JSON is preserved under `"_raw"`; a missing id draws a fresh
uuid.  `json.loads` applied to a truthy non-string would raise `TypeError`
in Python (dead path, modelled by serialising first). -/
def formatCalls (supply : Nat) : List Json → List FormattedCall × Nat
  | [] => ([], supply)
  | call :: rest =>
      let f0 := dictGet call "function"
      let func := if pyTruthy f0 then f0 else Json.obj []
      let argStrRaw := dictGet func "arguments"
      let argStr : String :=
        if pyTruthy argStrRaw then
          match argStrRaw with
          | .str s => s
          | v => jsonDumps v
        else "\x7b\x7d"
      let arguments :=
        match jsonLoads argStr with
        | some j => j
        | none => Json.obj [("_raw", argStrRaw)]
      let idv := dictGet call "id"
      let idAndSupply :=
        if pyTruthy idv then (idv, supply) else (Json.str (freshHex supply), supply + 1)
      let fc : FormattedCall :=
        { id := idAndSupply.1,
          name := (objGet func "name").getD (.str ""),
          arguments := arguments }
      let r := formatCalls idAndSupply.2 rest
      (fc :: r.1, r.2)

def fcToJson (fc : FormattedCall) : Json :=
  .obj [("id", fc.id), ("name", fc.name), ("arguments", fc.arguments)]

/-- The `completion` entry appended per iteration. -/
def completionEntry (supply : Nat) (now : String) (agentName : Option String)
    (modelName : String) (text : String) (reasoning rc : List String)
    (formatted : List FormattedCall) : Entry :=
  { id := freshHex supply, timestamp := now,
    role := some (.str "assistant"), type := some (.str "completion"),
    content := some (.obj
      [("agent", match agentName with | some a => Json.str a | none => Json.null),
       ("model", .str modelName),
       ("text", .str text),
       ("reasoning", .arr (reasoning.map Json.str)),
       ("reasoning_content", .arr (rc.map Json.str)),
       ("tool_calls", .arr (formatted.map fcToJson))]) }

/-- The `tool_result` entry appended per executed call. -/
def toolEntry (supply : Nat) (now : String) (call : FormattedCall)
    (args serialised : Json) : Entry :=
  { id := freshHex supply, timestamp := now,
    role := some (.str "tool"), type := some (.str "tool_result"),
    content := some (.obj
      [("tool", call.name), ("tool_call_id", call.id),
       ("arguments", args), ("result", serialised)]) }

/-- The `for call in formatted_calls` execution loop.  Returns the tool
entries appended (in order) before any failure, the uuid supply, and the
error of the first failing call, if any — a raised tool error propagates
after the earlier entries were already appended. -/
def execCalls (registry : ToolRegistry) (now : String) :
    List FormattedCall → Nat → List Entry × Nat × Option String
  | [], supply => ([], supply, none)
  | call :: rest, supply =>
      let args := if pyTruthy call.arguments then call.arguments else Json.obj []
      match registryExecute registry call.name args with
      | .error e => ([], supply, some e)
      | .ok result =>
          let serialised := ensureJsonable result
          let entry := toolEntry supply now call args serialised
          let r := execCalls registry now rest (supply + 1)
          (entry :: r.1, r.2.1, r.2.2)

/-- The outcome of `_handle_completion`: its return value or raised error,
the entries appended to the conversation store (in order), and how many
times the Model Client was called. -/
structure CompletionOutcome where
  result : Except String (Option String)
  appended : List Entry
  chatCalls : Nat

/-- The `while iterations < max_iterations` loop, by remaining
iterations (`remaining = max_iterations - iterations`); exhausting the
bound raises `Tool call loop exceeded max iterations.`. -/
def completionLoopF (chat : ChatFun) (registry : ToolRegistry)
    (systemPrompt : String) (agentName : Option String) (modelName : String)
    (now : String) :
    Nat → List Entry → List Entry → Nat → Option String → Nat → CompletionOutcome
  | 0, _, acc, _, _, calls =>
      { result := .error "Tool call loop exceeded max iterations.",
        appended := acc, chatCalls := calls }
  | Nat.succ n, conversation, acc, supply, _, calls =>
      let hist := buildMessageHistory conversation systemPrompt supply
      let messages := normaliseMessages hist.1
      match chat messages with
      | .error e => { result := .error e, appended := acc, chatCalls := calls + 1 }
      | .ok response =>
          let assistantMessage := respAssistantMessage response
          let unpacked := unpackAssistantMessage assistantMessage
          let fmt := formatCalls hist.2.2 (respToolCallsRaw response)
          let ce := completionEntry fmt.2 now agentName modelName
            unpacked.1 unpacked.2.1 unpacked.2.2 fmt.1
          let conversation1 := conversation ++ [ce]
          let acc1 := acc ++ [ce]
          if fmt.1.isEmpty then
            { result := .ok (some ce.id), appended := acc1, chatCalls := calls + 1 }
          else
            let ex := execCalls registry now fmt.1 (fmt.2 + 1)
            match ex.2.2 with
            | some e =>
                { result := .error e, appended := acc1 ++ ex.1, chatCalls := calls + 1 }
            | none =>
                completionLoopF chat registry systemPrompt agentName modelName now
                  n (conversation1 ++ ex.1) (acc1 ++ ex.1) ex.2.1
                  (some ce.id) (calls + 1)

/-- Models `_handle_completion`: an empty (or missing) conversation raises
`Conversation is empty.` before any Model Client call or append;
otherwise the loop runs with `max_iterations = 4`. -/
def handleCompletion (chat : ChatFun) (registry : ToolRegistry)
    (conversation : List Entry) (systemPrompt : String)
    (agentName : Option String) (modelName : String) (now : String)
    (supply : Nat) : CompletionOutcome :=
  if conversation.isEmpty then
    { result := .error "Conversation is empty.", appended := [], chatCalls := 0 }
  else
    completionLoopF chat registry systemPrompt agentName modelName now
      4 conversation [] supply none 0

/-- The status `_worker_main` posts for a completion task: `completed`
on a normal return, `failed` when `_handle_completion` raised. -/
def workerStatusFor (outcome : CompletionOutcome) : String :=
  match outcome.result with
  | .ok _ => "completed"
  | .error _ => "failed"

/-! ### Claim C2 — the tool-call iteration bound -/

def isCompletionEntry (e : Entry) : Bool :=
  match e.type with
  | some (.str s) => s == "completion"
  | _ => false

def isToolResultEntry (e : Entry) : Bool :=
  match e.type with
  | some (.str s) => s == "tool_result"
  | _ => false

def countCompletions (l : List Entry) : Nat := (l.filter isCompletionEntry).length

def countToolResults (l : List Entry) : Nat := (l.filter isToolResultEntry).length

/-- The canned Model Client of the claim: every turn returns one tool
call to the registered `ping` tool. -/
def c2Resp : Json :=
  .obj [("choices", .arr
    [.obj [("message", .obj
      [("content", .str "calling tool"),
       ("tool_calls", .arr
         [.obj [("id", .str "call1"), ("type", .str "function"),
                ("function", .obj [("name", .str "ping"),
                                   ("arguments", .str "\x7b\x7d")])]])])]])]

def c2Chat : ChatFun := fun _ => .ok c2Resp

/-- The built-in `ping` tool of `register_default_tools`. -/
def pingRegistry : ToolRegistry :=
  [("ping", fun _ => .ok (.obj [("status", .str "ok")]))]

def c2Conv : List Entry :=
  [{ id := "u1", timestamp := "t0", role := some (.str "user"),
     type := some (.str "message"), content := some (.str "hi") }]

def c2Out : CompletionOutcome :=
  handleCompletion c2Chat pingRegistry c2Conv "sys" (some "default") "model-x" "t1" 0

/-! ## Theorems -/

theorem perm_insLe (le : α → α → Bool) (x : α) (l : List α) :
    List.Perm (insLe le x l) (x :: l) := by
  induction l with
  | nil => simp [insLe]
  | cons y ys ih =>
      simp only [insLe]
      by_cases h : le x y
      · simp [h]
      · simp only [h, if_neg]
        exact List.Perm.trans (List.Perm.cons y ih) (List.Perm.swap x y ys)

theorem perm_sortLe (le : α → α → Bool) (l : List α) :
    List.Perm (sortLe le l) l := by
  induction l with
  | nil => simp [sortLe]
  | cons x xs ih =>
      simp only [sortLe]
      exact List.Perm.trans (perm_insLe le x (sortLe le xs)) (List.Perm.cons x ih)

theorem mem_insLe {le : α → α → Bool} {x z : α} {l : List α}
    (h : z ∈ insLe le x l) : z = x ∨ z ∈ l := by
  have := (perm_insLe le x l).mem_iff.mp h
  simpa using this

theorem pairwise_insLe {le : α → α → Bool}
    (total : ∀ a b, le a b = true ∨ le b a = true)
    (htrans : ∀ a b c, le a b = true → le b c = true → le a c = true)
    (x : α) (l : List α)
    (h : List.Pairwise (fun a b => le a b = true) l) :
    List.Pairwise (fun a b => le a b = true) (insLe le x l) := by
  induction l with
  | nil => simp [insLe]
  | cons y ys ih =>
      simp only [insLe]
      by_cases hxy : le x y
      · simp only [hxy, if_pos]
        refine List.Pairwise.cons ?_ h
        intro z hz
        rcases List.mem_cons.mp hz with rfl | hz
        · exact hxy
        · exact htrans x y z hxy ((List.pairwise_cons.mp h).1 z hz)
      · simp only [hxy, if_neg, Bool.false_eq_true, not_false_iff]
        refine List.Pairwise.cons ?_ (ih (List.pairwise_cons.mp h).2)
        intro z hz
        rcases mem_insLe hz with rfl | hz
        · rcases total y z with hyz | hzy
          · exact hyz
          · exact absurd hzy hxy
        · exact (List.pairwise_cons.mp h).1 z hz

theorem pairwise_sortLe {le : α → α → Bool}
    (total : ∀ a b, le a b = true ∨ le b a = true)
    (htrans : ∀ a b c, le a b = true → le b c = true → le a c = true)
    (l : List α) :
    List.Pairwise (fun a b => le a b = true) (sortLe le l) := by
  induction l with
  | nil => simp [sortLe]
  | cons x xs ih => exact pairwise_insLe total htrans x (sortLe le xs) ih

theorem enqueueAll_task_queue (reqs : List EnqReq) :
    ∀ s : TaskService,
      (enqueueAll s reqs).task_queue = s.task_queue ++ queueItems s.counter reqs ∧
      (enqueueAll s reqs).counter = s.counter + reqs.length := by
  induction reqs with
  | nil => intro s; simp [enqueueAll, queueItems]
  | cons r rest ih =>
      intro s
      have h := ih (enqueueRaw s r.kind r.priority r.conversation_id r.payload
        r.description r.agent r.task_id r.now).1
      simp only [enqueueAll, queueItems]
      constructor
      · rw [h.1]
        simp [enqueueRaw, mpQueuePut]
      · rw [h.2]
        simp [enqueueRaw]
        omega

theorem queueItems_seq (reqs : List EnqReq) :
    ∀ c : Nat, (queueItems c reqs).map (fun it => it.2.1) = List.range' c reqs.length := by
  induction reqs with
  | nil => intro c; simp [queueItems]
  | cons r rest ih => intro c; simp [queueItems, List.range', ih]

theorem queueItems_taskIds (reqs : List EnqReq) :
    ∀ c : Nat, (queueItems c reqs).map (fun it => it.2.2.task_id)
      = reqs.map (fun r => r.task_id) := by
  induction reqs with
  | nil => intro c; simp [queueItems]
  | cons r rest ih => intro c; simp [queueItems, ih]

theorem dequeueOrder_eq_self {α : Type} (q : List α) : dequeueOrder q = q := by
  induction q with
  | nil => simp [dequeueOrder, mpQueueGet]
  | cons x rest ih => rw [dequeueOrder]; simp [mpQueueGet, ih]

/-- C1 counterexample: with a priority-5 task enqueued before a priority-0
task, the worker dequeues the priority-5 task first — `mp.Queue` is FIFO,
so dequeue order is not ascending in `(priority, sequence_number)`. -/
theorem c1_counterexample :
    ((dequeueOrder c1Service.task_queue).map (fun it => it.1) = [5, 0]) ∧
    ¬ PriorityOrderedDequeue c1Service.task_queue := by
  constructor
  · rw [dequeueOrder_eq_self]
    rfl
  · intro h
    have h2 := h
    rw [PriorityOrderedDequeue, dequeueOrder_eq_self] at h2
    have : c1Service.task_queue
        = [(5, 0, ⟨"aaaa1111", "completion", some "conv1", Json.obj []⟩),
           (0, 1, ⟨"bbbb2222", "shutdown", none, Json.obj []⟩)] := rfl
    rw [this] at h2
    rcases (List.pairwise_cons.mp h2).1 _ (List.mem_singleton.mpr rfl) with hlt | ⟨heq, _⟩
    · omega
    · omega

/-- C1 amended: the task queue is a `multiprocessing.Queue`, which is
FIFO; the worker dequeues tasks exactly in enqueue order (ascending
`sequence_number` 0, 1, 2, …), regardless of the priority values carried
in the queue tuples. -/
theorem c1_amended_fifo_order (reqs : List EnqReq) :
    dequeueOrder (enqueueAll svcInit reqs).task_queue
        = (enqueueAll svcInit reqs).task_queue ∧
    ((enqueueAll svcInit reqs).task_queue.map (fun it => it.2.1)
        = List.range reqs.length) ∧
    ((enqueueAll svcInit reqs).task_queue.map (fun it => it.2.2.task_id)
        = reqs.map (fun r => r.task_id)) := by
  have h := enqueueAll_task_queue reqs svcInit
  refine ⟨dequeueOrder_eq_self _, ?_, ?_⟩
  · rw [h.1]
    have : svcInit.task_queue = [] := rfl
    rw [this, List.nil_append, queueItems_seq]
    have hc : svcInit.counter = 0 := rfl
    rw [hc, List.range_eq_range']
  · rw [h.1]
    have : svcInit.task_queue = [] := rfl
    rw [this, List.nil_append, queueItems_taskIds]

/-! ### Claim C4 — `drain_events` idempotence -/

theorem drainEvents_event_queue_empty (now : Nat) (s : TaskService) :
    (drainEvents now s).event_queue = [] := by
  rw [drainEvents]
  cases h : s.event_queue with
  | nil => simpa using h
  | cons e rest => simp

theorem drainEvents_of_empty (now : Nat) (s : TaskService)
    (h : s.event_queue = []) : drainEvents now s = s := by
  rw [drainEvents, h]

/-- C4: `drain_events` is idempotent once the event channel is empty —
draining a second time with no new events returns the identical service
state (in particular every record keeps its `status` and `updated_at`). -/
theorem c4_drain_events_idempotent (now1 now2 : Nat) (s : TaskService) :
    drainEvents now2 (drainEvents now1 s) = drainEvents now1 s ∧
    (drainEvents now2 (drainEvents now1 s)).tasks = (drainEvents now1 s).tasks := by
  have h := drainEvents_of_empty now2 (drainEvents now1 s)
    (drainEvents_event_queue_empty now1 s)
  exact ⟨h, by rw [h]⟩

theorem updLe_total (a b : String × TaskRecord) :
    updLe a b = true ∨ updLe b a = true := by
  rcases Nat.le_total b.2.updated_at a.2.updated_at with h | h
  · exact Or.inl (decide_eq_true h)
  · exact Or.inr (decide_eq_true h)

theorem updLe_trans (a b c : String × TaskRecord)
    (h1 : updLe a b = true) (h2 : updLe b c = true) : updLe a c = true :=
  decide_eq_true (Nat.le_trans (of_decide_eq_true h2) (of_decide_eq_true h1))

theorem pairwise_ne_of_nodup_ids {t : List (String × TaskRecord)}
    (h : (idsOf t).Nodup) :
    List.Pairwise (fun a b : String × TaskRecord => a.1 ≠ b.1) t := by
  have := h
  rw [idsOf, List.Nodup, List.pairwise_map] at this
  exact this

/-- With unique keys, two members sharing a key are the same member. -/
theorem eq_of_mem_of_same_id {t : List (String × TaskRecord)}
    (h : (idsOf t).Nodup) {p q : String × TaskRecord}
    (hp : p ∈ t) (hq : q ∈ t) (hid : p.1 = q.1) : p = q := by
  by_contra hne
  have hsym : Symmetric (fun a b : String × TaskRecord => a.1 ≠ b.1) := by
    intro a b hab
    exact fun hba => hab hba.symm
  exact ((pairwise_ne_of_nodup_ids h).forall hsym hp hq hne) hid

/-- Members of the first `n` and the remaining part of a unique-key list
have distinct keys. -/
theorem id_ne_of_take_drop {t : List (String × TaskRecord)}
    (h : (idsOf t).Nodup) (n : Nat) {a b : String × TaskRecord}
    (ha : a ∈ t.take n) (hb : b ∈ t.drop n) : a.1 ≠ b.1 := by
  have hp := pairwise_ne_of_nodup_ids h
  rw [← List.take_append_drop n t, List.pairwise_append] at hp
  exact hp.2.2 a ha b hb

theorem sortLe_updLe_pairwise (l : List (String × TaskRecord)) :
    List.Pairwise (fun a b => updLe a b = true) (sortLe updLe l) :=
  pairwise_sortLe updLe_total updLe_trans l

/-- For a stable descending sort, anything in the dropped part is no newer
than anything in the kept part. -/
theorem updated_at_le_of_take_drop {l : List (String × TaskRecord)} (n : Nat)
    {a b : String × TaskRecord}
    (ha : a ∈ (sortLe updLe l).take n) (hb : b ∈ (sortLe updLe l).drop n) :
    b.2.updated_at ≤ a.2.updated_at := by
  have hp := sortLe_updLe_pairwise l
  rw [← List.take_append_drop n (sortLe updLe l), List.pairwise_append] at hp
  exact of_decide_eq_true (hp.2.2 a ha b hb)

theorem mem_trimT1 {t : List (String × TaskRecord)} {p : String × TaskRecord} :
    p ∈ trimT1 t ↔ p ∈ t ∧ p.2.status ≠ "failed" := by
  simp [trimT1, List.mem_filter, bne_iff_ne]

theorem mem_completedOf {t : List (String × TaskRecord)} {p : String × TaskRecord} :
    p ∈ completedOf t ↔ p ∈ t ∧ p.2.status = "completed" := by
  simp [completedOf, List.mem_filter]

theorem mem_trim {t : List (String × TaskRecord)} {p : String × TaskRecord} :
    p ∈ trimCompletedTasks t ↔ p ∈ trimT1 t ∧ ¬ p.1 ∈ trimDropIds t := by
  simp [trimCompletedTasks, List.mem_filter]

theorem trim_sublist (t : List (String × TaskRecord)) :
    List.Sublist (trimCompletedTasks t) t :=
  (List.filter_sublist _).trans (List.filter_sublist _)

theorem prune_sublist (m : Nat) (t : List (String × TaskRecord)) :
    List.Sublist (prune m t) t := by
  rw [prune]
  split
  · exact List.Sublist.refl t
  · exact List.filter_sublist _

theorem trim_wf {t : List (String × TaskRecord)} (h : TasksWF t) :
    TasksWF (trimCompletedTasks t) := by
  unfold TasksWF idsOf at h ⊢
  exact List.Nodup.sublist ((trim_sublist t).map (fun p => p.1)) h

theorem prune_wf {m : Nat} {t : List (String × TaskRecord)} (h : TasksWF t) :
    TasksWF (prune m t) := by
  unfold TasksWF idsOf at h ⊢
  exact List.Nodup.sublist ((prune_sublist m t).map (fun p => p.1)) h

theorem nodup_ids_sorted_completed {t : List (String × TaskRecord)}
    (h : TasksWF t) :
    (idsOf (sortLe updLe (completedOf (trimT1 t)))).Nodup := by
  have hperm := (perm_sortLe updLe (completedOf (trimT1 t))).map (fun p => p.1)
  have hsub : List.Sublist (completedOf (trimT1 t)) t :=
    (List.filter_sublist _).trans (List.filter_sublist _)
  have hnd : (List.map (fun p => p.1) (completedOf (trimT1 t))).Nodup :=
    List.Nodup.sublist (hsub.map (fun p => p.1)) h
  exact hperm.nodup_iff.mpr hnd

theorem nodup_ids_sorted_all {t : List (String × TaskRecord)}
    (h : TasksWF t) : (idsOf (sortLe updLe t)).Nodup := by
  have hperm := (perm_sortLe updLe t).map (fun p => p.1)
  exact hperm.nodup_iff.mpr h

theorem trim_noFailed (t : List (String × TaskRecord)) :
    NoFailed (trimCompletedTasks t) := by
  intro p hp
  exact (mem_trimT1.mp (mem_trim.mp hp).1).2

/-- A `completed` survivor of the trim lies among the 2 most-recently-
updated completed records. -/
theorem trim_completed_mem_take {t : List (String × TaskRecord)}
    {p : String × TaskRecord} (hp : p ∈ trimCompletedTasks t)
    (hpc : p.2.status = "completed") :
    p ∈ (sortLe updLe (completedOf (trimT1 t))).take 2 := by
  rcases mem_trim.mp hp with ⟨hp1, hpd⟩
  have hpc2 : p ∈ completedOf (trimT1 t) := mem_completedOf.mpr ⟨hp1, hpc⟩
  have hps : p ∈ sortLe updLe (completedOf (trimT1 t)) :=
    (perm_sortLe updLe _).mem_iff.mpr hpc2
  rw [← List.take_append_drop 2 (sortLe updLe (completedOf (trimT1 t))),
      List.mem_append] at hps
  rcases hps with hps | hps
  · exact hps
  · exact absurd (List.mem_map.mpr ⟨p, hps, rfl⟩) hpd

theorem trim_count {t : List (String × TaskRecord)} (hwf : TasksWF t) :
    CompletedCount (trimCompletedTasks t) ≤ 2 := by
  have hsub2 : completedOf (trimCompletedTasks t)
      ⊆ (sortLe updLe (completedOf (trimT1 t))).take 2 := by
    intro p hp
    rcases mem_completedOf.mp hp with ⟨hpm, hpc⟩
    exact trim_completed_mem_take hpm hpc
  have hnd : (completedOf (trimCompletedTasks t)).Nodup := by
    have hsub : List.Sublist (completedOf (trimCompletedTasks t)) t :=
      (List.filter_sublist _).trans (trim_sublist t)
    exact List.Nodup.of_map (fun p => p.1)
      (List.Nodup.sublist (hsub.map (fun p => p.1)) hwf)
  have hlen := (hnd.subperm hsub2).length_le
  have htake : ((sortLe updLe (completedOf (trimT1 t))).take 2).length ≤ 2 := by
    rw [List.length_take]
    exact Nat.min_le_left 2 _
  exact Nat.le_trans hlen htake

theorem trim_retention {t : List (String × TaskRecord)} (hwf : TasksWF t) :
    CompletedRetention (trimCompletedTasks t) t := by
  intro p hp hpc q hq hqc hqni
  have hq1 : q ∈ trimT1 t := by
    refine mem_trimT1.mpr ⟨hq, ?_⟩
    rw [hqc]
    intro hcf
    exact absurd hcf (by decide)
  have hqc2 : q ∈ completedOf (trimT1 t) := mem_completedOf.mpr ⟨hq1, hqc⟩
  have hqs : q ∈ sortLe updLe (completedOf (trimT1 t)) :=
    (perm_sortLe updLe _).mem_iff.mpr hqc2
  rw [← List.take_append_drop 2 (sortLe updLe (completedOf (trimT1 t))),
      List.mem_append] at hqs
  rcases hqs with hqs | hqs
  · -- q would have survived the trim, contradicting its absence
    exfalso
    have hqd : ¬ q.1 ∈ trimDropIds t := by
      intro hmem
      rcases List.mem_map.mp hmem with ⟨r, hr, hrq⟩
      exact id_ne_of_take_drop (nodup_ids_sorted_completed hwf) 2 hqs hr hrq.symm
    exact hqni (List.mem_map.mpr ⟨q, mem_trim.mpr ⟨hq1, hqd⟩, rfl⟩)
  · exact updated_at_le_of_take_drop 2 (trim_completed_mem_take hp hpc) hqs

/-- Anything dropped by `prune` is no newer than anything it keeps. -/
theorem prune_retention {m : Nat} {t : List (String × TaskRecord)}
    (hwf : TasksWF t) :
    ∀ p ∈ prune m t, ∀ q ∈ t, ¬ q.1 ∈ idsOf (prune m t) →
      q.2.updated_at ≤ p.2.updated_at := by
  intro p hp q hq hqni
  by_cases hlen : t.length ≤ m
  · exfalso
    rw [prune, if_pos hlen] at hqni
    exact hqni (List.mem_map.mpr ⟨q, hq, rfl⟩)
  · rw [prune, if_neg hlen] at hp hqni
    rcases List.mem_filter.mp hp with ⟨hpt, hpk⟩
    have hpk2 : p.1 ∈ pruneKeepIds m t := of_decide_eq_true hpk
    have hqk : ¬ q.1 ∈ pruneKeepIds m t := by
      intro hmem
      exact hqni (List.mem_map.mpr
        ⟨q, List.mem_filter.mpr ⟨hq, decide_eq_true hmem⟩, rfl⟩)
    have hqs : q ∈ sortLe updLe t := (perm_sortLe updLe t).mem_iff.mpr hq
    rw [← List.take_append_drop m (sortLe updLe t), List.mem_append] at hqs
    rcases hqs with hqs | hqs
    · exact absurd (List.mem_map.mpr ⟨q, hqs, rfl⟩) hqk
    · have hps : p ∈ sortLe updLe t := (perm_sortLe updLe t).mem_iff.mpr hpt
      rw [← List.take_append_drop m (sortLe updLe t), List.mem_append] at hps
      rcases hps with hps | hps
      · exact updated_at_le_of_take_drop m hps hqs
      · exfalso
        rcases List.mem_map.mp hpk2 with ⟨r, hr, hrp⟩
        exact id_ne_of_take_drop (nodup_ids_sorted_all hwf) m hr hps hrp

theorem alookup_eq_none_iff {α : Type} (k : String) (t : List (String × α)) :
    alookup k t = none ↔ ¬ k ∈ t.map (fun p => p.1) := by
  induction t with
  | nil => simp [alookup]
  | cons p rest ih =>
      rw [alookup]
      by_cases h : p.1 = k
      · simp [h]
      · simp only [List.map_cons, List.mem_cons]
        rw [if_neg (by exact h), ih]
        constructor
        · intro hn hmem
          rcases hmem with hmem | hmem
          · exact h hmem.symm
          · exact hn hmem
        · intro hn hmem
          exact hn (Or.inr hmem)

theorem alookup_mem {α : Type} {k : String} {t : List (String × α)} {v : α}
    (h : alookup k t = some v) : (k, v) ∈ t := by
  induction t with
  | nil => simp [alookup] at h
  | cons p rest ih =>
      obtain ⟨k0, v0⟩ := p
      rw [alookup] at h
      by_cases hk : k0 = k
      · rw [if_pos hk] at h
        cases h
        rw [hk]
        exact List.mem_cons_self _ rest
      · rw [if_neg hk] at h
        exact List.mem_cons_of_mem (k0, v0) (ih h)

theorem dictSet_ids_of_found {α : Type} {k : String} {t : List (String × α)}
    {w : α} (h : alookup k t = some w) (v : α) :
    (dictSet k v t).map (fun p => p.1) = t.map (fun p => p.1) := by
  induction t with
  | nil => simp [alookup] at h
  | cons p rest ih =>
      obtain ⟨k0, v0⟩ := p
      rw [alookup] at h
      by_cases hk : k0 = k
      · rw [dictSet, if_pos hk]
        simp [hk]
      · rw [if_neg hk] at h
        rw [dictSet, if_neg hk]
        simp [ih h]

theorem applyEvent_ids (now : Nat)
    (acc : List (String × TaskRecord) × List String) (e : EventMsg) :
    (applyEvent now acc e).1.map (fun p => p.1) = acc.1.map (fun p => p.1) := by
  rw [applyEvent]
  cases h : alookup e.task_id acc.1 with
  | none => rfl
  | some record => exact dictSet_ids_of_found h _

theorem foldl_applyEvent_ids (now : Nat) (evs : List EventMsg) :
    ∀ acc : List (String × TaskRecord) × List String,
      (evs.foldl (applyEvent now) acc).1.map (fun p => p.1)
        = acc.1.map (fun p => p.1) := by
  induction evs with
  | nil => intro acc; rfl
  | cons e rest ih =>
      intro acc
      rw [List.foldl_cons, ih (applyEvent now acc e), applyEvent_ids]

/-- The table `drain_events` leaves behind when the queue was nonempty. -/
theorem drainEvents_tasks_of_ne (now : Nat) (s : TaskService)
    (h : s.event_queue ≠ []) :
    (drainEvents now s).tasks
      = prune 20 (trimCompletedTasks
          (s.event_queue.foldl (applyEvent now) (s.tasks, s.needs_summary)).1) := by
  rw [drainEvents]
  cases hq : s.event_queue with
  | nil => exact absurd hq h
  | cons e rest => simp

theorem snapshot_tasks (s : TaskService) :
    (snapshot s).1.tasks = trimCompletedTasks s.tasks := rfl

/-- C5 — after a drain that processed at least one event, and after every
`snapshot()` call, the task table holds no `failed` record and at most 2
`completed` records, and those are at least as recently updated as every
`completed` record that was dropped.  For a drain the comparison baseline
is the table with all drained events applied (statuses as the events set
them); `snapshot` compares against the table it trims. -/
theorem c5_failed_dropped_completed_capped (now : Nat) (s : TaskService)
    (hwf : TasksWF s.tasks) :
    (s.event_queue ≠ [] →
      TableInvariant (drainEvents now s).tasks
        (s.event_queue.foldl (applyEvent now) (s.tasks, s.needs_summary)).1) ∧
    (TableInvariant (snapshot s).1.tasks s.tasks ∧
      ∀ r ∈ (snapshot s).2, r.status ≠ "failed") := by
  constructor
  · intro hne
    have hA : TasksWF
        (s.event_queue.foldl (applyEvent now) (s.tasks, s.needs_summary)).1 := by
      unfold TasksWF idsOf
      rw [foldl_applyEvent_ids]
      exact hwf
    set A := (s.event_queue.foldl (applyEvent now) (s.tasks, s.needs_summary)).1 with hAdef
    have htasks := drainEvents_tasks_of_ne now s hne
    refine ⟨?_, ?_, ?_⟩
    · intro p hp
      rw [htasks] at hp
      exact trim_noFailed A p ((prune_sublist 20 (trimCompletedTasks A)).subset hp)
    · rw [htasks]
      have hsub : List.Sublist (completedOf (prune 20 (trimCompletedTasks A)))
          (completedOf (trimCompletedTasks A)) :=
        List.Sublist.filter _ (prune_sublist 20 (trimCompletedTasks A))
      exact Nat.le_trans hsub.length_le (trim_count hA)
    · intro p hp hpc q hq hqc hqni
      rw [htasks] at hp hqni
      by_cases hqT : q.1 ∈ idsOf (trimCompletedTasks A)
      · rcases List.mem_map.mp hqT with ⟨r, hr, hrq⟩
        have hrA : r ∈ A := (trim_sublist A).subset hr
        have hqr : q = r := eq_of_mem_of_same_id hA hq hrA hrq.symm
        exact prune_retention (trim_wf hA) p hp q (hqr ▸ hr) hqni
      · exact trim_retention hA p
          ((prune_sublist 20 (trimCompletedTasks A)).subset hp) hpc q hq hqc hqT
  · refine ⟨⟨?_, ?_, ?_⟩, ?_⟩
    · rw [snapshot_tasks]
      exact trim_noFailed s.tasks
    · rw [snapshot_tasks]
      exact trim_count hwf
    · rw [snapshot_tasks]
      exact trim_retention hwf
    · intro r hr
      have hr2 : r ∈ (trimCompletedTasks s.tasks).map (fun p => p.2) := by
        have := (perm_sortLe snapLe ((trimCompletedTasks s.tasks).map (fun p => p.2))).mem_iff.mp hr
        exact this
      rcases List.mem_map.mp hr2 with ⟨p, hp, hpr⟩
      rw [← hpr]
      exact trim_noFailed s.tasks p hp

theorem c5_witness :
    TasksWF c5S.tasks ∧
    ((c5S.event_queue ≠ [] →
      TableInvariant (drainEvents 9 c5S).tasks
        (c5S.event_queue.foldl (applyEvent 9) (c5S.tasks, c5S.needs_summary)).1) ∧
    (TableInvariant (snapshot c5S).1.tasks c5S.tasks ∧
      ∀ r ∈ (snapshot c5S).2, r.status ≠ "failed")) :=
  ⟨by unfold TasksWF idsOf; decide,
   c5_failed_dropped_completed_capped 9 c5S (by unfold TasksWF idsOf; decide)⟩

theorem mem_dictSet {α : Type} {k : String} {v : α} {t : List (String × α)}
    {p : String × α} (h : p ∈ dictSet k v t) : p = (k, v) ∨ p ∈ t := by
  induction t with
  | nil =>
      rw [dictSet] at h
      rcases List.mem_singleton.mp h with rfl
      exact Or.inl rfl
  | cons q rest ih =>
      obtain ⟨k0, v0⟩ := q
      rw [dictSet] at h
      by_cases hk : k0 = k
      · rw [if_pos hk] at h
        rcases List.mem_cons.mp h with rfl | h
        · exact Or.inl rfl
        · exact Or.inr (List.mem_cons_of_mem _ h)
      · rw [if_neg hk] at h
        rcases List.mem_cons.mp h with rfl | h
        · exact Or.inr (List.mem_cons_self _ _)
        · rcases ih h with h | h
          · exact Or.inl h
          · exact Or.inr (List.mem_cons_of_mem _ h)

theorem keyCoherent_applyEvent (now : Nat)
    (acc : List (String × TaskRecord) × List String) (e : EventMsg)
    (hco : KeyCoherent acc.1) : KeyCoherent (applyEvent now acc e).1 := by
  rw [applyEvent]
  cases h : alookup e.task_id acc.1 with
  | none => exact hco
  | some record =>
      intro p hp
      rcases mem_dictSet hp with rfl | hp
      · exact hco (e.task_id, record) (alookup_mem h)
      · exact hco p hp

theorem keyCoherent_foldl (now : Nat) (evs : List EventMsg) :
    ∀ acc : List (String × TaskRecord) × List String,
      KeyCoherent acc.1 → KeyCoherent (evs.foldl (applyEvent now) acc).1 := by
  induction evs with
  | nil => intro acc hco; exact hco
  | cons e rest ih =>
      intro acc hco
      rw [List.foldl_cons]
      exact ih _ (keyCoherent_applyEvent now acc e hco)

theorem keyCoherent_subset {t u : List (String × TaskRecord)}
    (hsub : u ⊆ t) (hco : KeyCoherent t) : KeyCoherent u :=
  fun p hp => hco p (hsub hp)

theorem drain_ids_subset (now : Nat) (s : TaskService) :
    ∀ i ∈ idsOf (drainEvents now s).tasks, i ∈ idsOf s.tasks := by
  intro i hi
  by_cases hq : s.event_queue = []
  · rw [drainEvents_of_empty now s hq] at hi
    exact hi
  · rw [drainEvents_tasks_of_ne now s hq] at hi
    rcases List.mem_map.mp hi with ⟨p, hp, hpi⟩
    have hpA : p ∈ (s.event_queue.foldl (applyEvent now)
        (s.tasks, s.needs_summary)).1 :=
      (trim_sublist _).subset ((prune_sublist 20 _).subset hp)
    have hmem : i ∈ ((s.event_queue.foldl (applyEvent now)
        (s.tasks, s.needs_summary)).1.map (fun p => p.1)) :=
      List.mem_map.mpr ⟨p, hpA, hpi⟩
    rw [foldl_applyEvent_ids] at hmem
    exact hmem

theorem drain_keyCoherent (now : Nat) (s : TaskService)
    (hco : KeyCoherent s.tasks) : KeyCoherent (drainEvents now s).tasks := by
  by_cases hq : s.event_queue = []
  · rw [drainEvents_of_empty now s hq]
    exact hco
  · rw [drainEvents_tasks_of_ne now s hq]
    have hA : KeyCoherent (s.event_queue.foldl (applyEvent now)
        (s.tasks, s.needs_summary)).1 :=
      keyCoherent_foldl now s.event_queue (s.tasks, s.needs_summary) hco
    exact keyCoherent_subset
      (fun p hp => (trim_sublist _).subset ((prune_sublist 20 _).subset hp)) hA

/-- C9 — `drain_events` silently discards an event whose `task_id` has no
record: applying it changes neither the table nor the summary markers, and
draining never creates a record, so an id absent before the drain (such as
the worker bootstrap pseudo-id `"bootstrap"`) is absent afterwards and
never appears in `snapshot()`. -/
theorem c9_unknown_event_discarded (now : Nat) (s : TaskService) (e : EventMsg)
    (hni : ¬ e.task_id ∈ idsOf s.tasks)
    (hco : KeyCoherent s.tasks)
    (hb : ¬ "bootstrap" ∈ idsOf s.tasks) :
    applyEvent now (s.tasks, s.needs_summary) e = (s.tasks, s.needs_summary) ∧
    (∀ i ∈ idsOf (drainEvents now s).tasks, i ∈ idsOf s.tasks) ∧
    ¬ "bootstrap" ∈ idsOf (drainEvents now s).tasks ∧
    ∀ r ∈ (snapshot (drainEvents now s)).2, r.id ≠ "bootstrap" := by
  refine ⟨?_, drain_ids_subset now s, ?_, ?_⟩
  · have hl : alookup e.task_id s.tasks = none :=
      (alookup_eq_none_iff e.task_id s.tasks).mpr hni
    rw [applyEvent]
    rw [hl]
  · intro hmem
    exact hb (drain_ids_subset now s "bootstrap" hmem)
  · intro r hr
    have hr2 : r ∈ (trimCompletedTasks (drainEvents now s).tasks).map
        (fun p => p.2) :=
      (perm_sortLe snapLe _).mem_iff.mp hr
    rcases List.mem_map.mp hr2 with ⟨p, hp, hpr⟩
    have hpd : p ∈ (drainEvents now s).tasks := (trim_sublist _).subset hp
    have hid : r.id = p.1 := by
      rw [← hpr]
      exact drain_keyCoherent now s hco p hpd
    intro hrb
    apply hb
    apply drain_ids_subset now s "bootstrap"
    rw [← hrb, hid]
    exact List.mem_map.mpr ⟨p, hpd, rfl⟩

theorem c9_witness :
    (¬ bootstrapEvent.task_id ∈ idsOf c9S.tasks) ∧ KeyCoherent c9S.tasks ∧
    (¬ "bootstrap" ∈ idsOf c9S.tasks) ∧
    (applyEvent 7 (c9S.tasks, c9S.needs_summary) bootstrapEvent
        = (c9S.tasks, c9S.needs_summary) ∧
      (∀ i ∈ idsOf (drainEvents 7 c9S).tasks, i ∈ idsOf c9S.tasks) ∧
      ¬ "bootstrap" ∈ idsOf (drainEvents 7 c9S).tasks ∧
      ∀ r ∈ (snapshot (drainEvents 7 c9S)).2, r.id ≠ "bootstrap") :=
  ⟨by decide, by unfold KeyCoherent; decide, by decide,
    c9_unknown_event_discarded 7 c9S bootstrapEvent (by decide)
      (by unfold KeyCoherent; decide) (by decide)⟩

theorem idleStep_fires (timeout : Nat) (idle : Bool) (elapsed : Nat) :
    ((idleStep timeout idle elapsed).firedOnIdle = true ↔
      (idle = false ∧ (idleStep timeout idle elapsed).newIdle = true)) ∧
    ((idleStep timeout idle elapsed).firedOnActive = true ↔
      (idle = true ∧ (idleStep timeout idle elapsed).newIdle = false)) := by
  rw [idleStep]
  by_cases h : timeout < elapsed
  · rw [if_pos h]
    cases idle <;> simp
  · rw [if_neg h]
    cases idle <;> simp

/-- C6 — along every run of the loop, `on_idle` fires exactly once per
false→true transition of the idle flag and `on_active` exactly once per
true→false transition; a tick that does not change the flag fires
neither callback. -/
theorem c6_idle_monitor_edge_triggered (timeout : Nat) (idle0 : Bool)
    (elapsedSeq : List Nat) :
    countOnIdle (idleRun timeout idle0 elapsedSeq)
        = countRises idle0 (idleRun timeout idle0 elapsedSeq) ∧
    countOnActive (idleRun timeout idle0 elapsedSeq)
        = countFalls idle0 (idleRun timeout idle0 elapsedSeq) ∧
    (∀ idle elapsed,
      ((idleStep timeout idle elapsed).firedOnIdle = true ↔
        (idle = false ∧ (idleStep timeout idle elapsed).newIdle = true)) ∧
      ((idleStep timeout idle elapsed).firedOnActive = true ↔
        (idle = true ∧ (idleStep timeout idle elapsed).newIdle = false))) := by
  refine ⟨?_, ?_, ?_⟩
  · induction elapsedSeq generalizing idle0 with
    | nil => rfl
    | cons e rest ih =>
        rw [idleRun]
        show countOnIdle (idleStep timeout idle0 e :: idleRun timeout _ rest) = _
        rw [countRises]
        have hstep := (idleStep_fires timeout idle0 e).1
        rw [countOnIdle, List.filter_cons]
        by_cases hf : (idleStep timeout idle0 e).firedOnIdle = true
        · rw [if_pos (by exact hf)]
          rw [if_pos ((hstep).mp hf)]
          rw [List.length_cons]
          rw [Nat.add_comm]
          exact congrArg (fun n => 1 + n) (ih _)
        · rw [if_neg (by simpa using hf)]
          rw [if_neg (fun hc => hf (hstep.mpr hc))]
          rw [Nat.zero_add]
          exact ih _
  · induction elapsedSeq generalizing idle0 with
    | nil => rfl
    | cons e rest ih =>
        rw [idleRun]
        show countOnActive (idleStep timeout idle0 e :: idleRun timeout _ rest) = _
        rw [countFalls]
        have hstep := (idleStep_fires timeout idle0 e).2
        rw [countOnActive, List.filter_cons]
        by_cases hf : (idleStep timeout idle0 e).firedOnActive = true
        · rw [if_pos (by exact hf)]
          rw [if_pos ((hstep).mp hf)]
          rw [List.length_cons]
          rw [Nat.add_comm]
          exact congrArg (fun n => 1 + n) (ih _)
        · rw [if_neg (by simpa using hf)]
          rw [if_neg (fun hc => hf (hstep.mpr hc))]
          rw [Nat.zero_add]
          exact ih _
  · intro idle elapsed
    exact idleStep_fires timeout idle elapsed

/-- C3 — code bug: for the assistant message
`\x7b"content": "<think>hi</think>hello"\x7d` the visible text keeps the
whole `<think>…</think>` span and no reasoning snippet is captured,
because the raw-string pattern `</\\1>` matches the literal `</\1>` and
not a backreference to the opening tag.  The second conjunct localises
the slip: a span closed by the literal `</\1>` IS stripped and captured. -/
theorem c3_think_markup_not_stripped :
    unpackAssistantMessage
        (Json.obj [("content", Json.str "<think>hi</think>hello")])
      = ("<think>hi</think>hello", [], []) ∧
    stripChainMarkup "<think>hi</\\1>ok" = ("ok", ["hi"]) := by
  constructor
  · decide
  · decide

/-! ### Claim C7 — system-prompt resolution -/

theorem buildStep_sp_not_truthy (acc : List WireMsg × Json × Nat) (e : Entry)
    (h : e.type = some (.str "metadata") →
      pyTruthy (dictGet (e.content.getD .null) "system_prompt") = false) :
    (buildStep acc e).2.1 = acc.2.1 := by
  cases ht : e.type with
  | none => simp [buildStep, ht]
  | some j =>
      cases j with
      | str etype =>
          by_cases h1 : etype = "metadata"
          · subst h1
            have hf := h ht
            simp [buildStep, ht, hf]
          · by_cases h2 : etype = "label"
            · simp [buildStep, ht, h1, h2]
            · by_cases h3 : etype = "message"
              · simp [buildStep, ht, h1, h2, h3]
              · by_cases h4 : etype = "completion"
                · simp [buildStep, ht, h1, h2, h3, h4]
                · by_cases h5 : etype = "tool_result"
                  · simp [buildStep, ht, h1, h2, h3, h4, h5]
                  · simp [buildStep, ht, h1, h2, h3, h4, h5]
      | null => simp [buildStep, ht]
      | bool b => simp [buildStep, ht]
      | num n => simp [buildStep, ht]
      | arr items => simp [buildStep, ht]
      | obj fields => simp [buildStep, ht]

theorem buildStep_sp_metadata (acc : List WireMsg × Json × Nat) (e : Entry)
    (v : Json) (ht : e.type = some (.str "metadata"))
    (hv : dictGet (e.content.getD .null) "system_prompt" = v)
    (htr : pyTruthy v = true) :
    (buildStep acc e).2.1 = v := by
  simp [buildStep, ht, hv, htr]

theorem foldl_sp_unchanged (entries : List Entry) :
    ∀ acc : List WireMsg × Json × Nat,
      (∀ e ∈ entries, e.type = some (.str "metadata") →
        pyTruthy (dictGet (e.content.getD .null) "system_prompt") = false) →
      (entries.foldl buildStep acc).2.1 = acc.2.1 := by
  induction entries with
  | nil => intro acc _; rfl
  | cons e rest ih =>
      intro acc h
      rw [List.foldl_cons]
      rw [ih (buildStep acc e) (fun e2 he2 => h e2 (List.mem_cons_of_mem e he2))]
      exact buildStep_sp_not_truthy acc e (h e (List.mem_cons_self e rest))

/-- C7 counterexample: with entries
`[metadata(system_prompt="A"), metadata(system_prompt="")]` the most
recent metadata entry carries `""`, yet `_build_message_history` resolves
the prompt to `"A"` — `entry["content"].get("system_prompt") or
system_prompt` ignores a falsy override, so the most recent metadata entry
does not always win. -/
theorem c7_counterexample :
    (buildMessageHistory c7CE "d" 0).2.1 = Json.str "A" ∧
    ¬ (buildMessageHistory c7CE "d" 0).2.1 = Json.str "" := by
  have h1 : (buildMessageHistory c7CE "d" 0).2.1 = Json.str "A" := rfl
  refine ⟨h1, ?_⟩
  intro h2
  rw [h1] at h2
  injection h2 with h3
  exact absurd h3 (by decide)

/-- C7 amended: the active system prompt is the `system_prompt` of the
most recent metadata entry whose `system_prompt` is truthy (non-empty);
metadata entries with falsy prompts and the default are overridden only by
such entries.  When the resolved prompt is truthy it is prepended as the
first (system) message.  For the claim's example the resolved prompt is
`"B"`. -/
theorem c7_amended_last_truthy_metadata_wins :
    (∀ (pre suf : List Entry) (e : Entry) (d : String) (supply : Nat) (v : Json),
      e.type = some (.str "metadata") →
      dictGet (e.content.getD .null) "system_prompt" = v →
      pyTruthy v = true →
      (∀ e2 ∈ suf, e2.type = some (.str "metadata") →
        pyTruthy (dictGet (e2.content.getD .null) "system_prompt") = false) →
      (buildMessageHistory (pre ++ e :: suf) d supply).2.1 = v) ∧
    (∀ (conversation : List Entry) (d : String) (supply : Nat),
      pyTruthy (buildMessageHistory conversation d supply).2.1 = true →
      ∃ rest, (buildMessageHistory conversation d supply).1
        = systemMsg (buildMessageHistory conversation d supply).2.1 :: rest) ∧
    (buildMessageHistory c7Example "d" 0).2.1 = Json.str "B" := by
  refine ⟨?_, ?_, rfl⟩
  · intro pre suf e d supply v ht hv htr hsuf
    show ((pre ++ e :: suf).foldl buildStep ([], Json.str d, supply)).2.1 = v
    rw [List.foldl_append, List.foldl_cons]
    rw [foldl_sp_unchanged suf _ hsuf]
    exact buildStep_sp_metadata _ e v ht hv htr
  · intro conversation d supply htr
    refine ⟨(conversation.foldl buildStep ([], Json.str d, supply)).1, ?_⟩
    have htr2 : pyTruthy
        ((conversation.foldl buildStep ([], Json.str d, supply)).2.1) = true := htr
    show (if pyTruthy (conversation.foldl buildStep ([], Json.str d, supply)).2.1
          then systemMsg (conversation.foldl buildStep ([], Json.str d, supply)).2.1
            :: (conversation.foldl buildStep ([], Json.str d, supply)).1
          else (conversation.foldl buildStep ([], Json.str d, supply)).1) = _
    rw [if_pos htr2]
    rfl

/-- Witness for the amended C7 at concrete inputs: for the claim's
example the resolved prompt is `"B"` and, being truthy, it is prepended
as the first (system) message. -/
theorem c7_witness :
    pyTruthy (buildMessageHistory c7Example "d" 0).2.1 = true ∧
    (buildMessageHistory c7Example "d" 0).2.1 = Json.str "B" ∧
    (∃ rest, (buildMessageHistory c7Example "d" 0).1
      = systemMsg ((buildMessageHistory c7Example "d" 0).2.1) :: rest) := by
  refine ⟨by decide, ?_, ?_⟩
  · exact (c7_amended_last_truthy_metadata_wins).2.2
  · exact (c7_amended_last_truthy_metadata_wins).2.1 c7Example "d" 0 (by decide)

/-! ### Claim C8 — message normalisation -/

theorem fixFunction_arguments_str (f : FuncSpec) :
    ∃ s, (fixFunction f).arguments = some (Json.str s) := by
  cases ha : f.arguments with
  | none => exact ⟨"\x7b\x7d", by simp [fixFunction, ha]⟩
  | some v =>
      cases v with
      | null => exact ⟨"\x7b\x7d", by simp [fixFunction, ha]⟩
      | str s => exact ⟨s, by simp [fixFunction, ha]⟩
      | bool b => exact ⟨jsonDumps (.bool b), by simp [fixFunction, ha]⟩
      | num n => exact ⟨jsonDumps (.num n), by simp [fixFunction, ha]⟩
      | arr items => exact ⟨jsonDumps (.arr items), by simp [fixFunction, ha]⟩
      | obj fields => exact ⟨jsonDumps (.obj fields), by simp [fixFunction, ha]⟩

/-- C8 — every message `_normalise_messages` outputs has string content,
every tool call in it carries a string `function.arguments`, and every
tool-role message additionally has a string `name` (and string content):
the Model Client never receives non-string content or argument fields. -/
theorem c8_normalised_messages_are_strings (msgs : List WireMsg)
    (m : WireMsg) (hm : m ∈ normaliseMessages msgs) :
    (∃ s, m.content = some (Json.str s)) ∧
    (∀ l, m.tool_calls = some l → ∀ call ∈ l,
      ∃ f, call.function = some f ∧ ∃ s, f.arguments = some (Json.str s)) ∧
    (m.role = Json.str "tool" →
      (∃ s, m.name = some (Json.str s)) ∧ ∃ s, m.content = some (Json.str s)) := by
  rcases List.mem_map.mp hm with ⟨m0, _, rfl⟩
  have hcalls : ∀ l, (normaliseMsg m0).tool_calls = some l → ∀ call ∈ l,
      ∃ f, call.function = some f ∧ ∃ s, f.arguments = some (Json.str s) := by
    intro l hl call hcall
    have htc : (normaliseMsg m0).tool_calls
        = m0.tool_calls.map (fun l2 => l2.map fixCall) := by
      rw [normaliseMsg]
      by_cases hr : roleIsTool m0.role
      · rw [if_pos hr]
      · rw [if_neg hr]
    rw [htc] at hl
    cases h0 : m0.tool_calls with
    | none => rw [h0] at hl; cases hl
    | some l0 =>
        rw [h0] at hl
        have hl2 : l = l0.map fixCall := by
          injection hl with h
          exact h.symm
        subst hl2
        rcases List.mem_map.mp hcall with ⟨c0, _, rfl⟩
        refine ⟨fixFunction (c0.function.getD { name := none, arguments := none }),
          rfl, ?_⟩
        exact fixFunction_arguments_str _
  by_cases hr : roleIsTool m0.role
  · have hres : normaliseMsg m0
        = { m0 with content := some (.str (normaliseContent m0.content)),
                    tool_calls := m0.tool_calls.map (fun l2 => l2.map fixCall),
                    name := some (.str (
                      match m0.name with
                      | some (.str s) => s
                      | some v => pyStr v
                      | none => pyStr .null)) } := by
      rw [normaliseMsg, if_pos hr]
    refine ⟨⟨normaliseContent m0.content, by rw [hres]⟩, hcalls, ?_⟩
    intro _
    constructor
    · refine ⟨(match m0.name with
               | some (.str s) => s
               | some v => pyStr v
               | none => pyStr .null), ?_⟩
      rw [hres]
    · exact ⟨normaliseContent m0.content, by rw [hres]⟩
  · have hres : normaliseMsg m0
        = { m0 with content := some (.str (normaliseContent m0.content)),
                    tool_calls := m0.tool_calls.map (fun l2 => l2.map fixCall) } := by
      rw [normaliseMsg, if_neg hr]
    refine ⟨⟨normaliseContent m0.content, by rw [hres]⟩, hcalls, ?_⟩
    intro hrole
    exfalso
    have hrole0 : m0.role = Json.str "tool" := by
      rw [hres] at hrole
      exact hrole
    rw [hrole0] at hr
    exact hr (by decide)

theorem c8_witness :
    (normaliseMsg c8Msg ∈ normaliseMessages [c8Msg]) ∧
    ((∃ s, (normaliseMsg c8Msg).content = some (Json.str s)) ∧
     (∀ l, (normaliseMsg c8Msg).tool_calls = some l → ∀ call ∈ l,
       ∃ f, call.function = some f ∧ ∃ s, f.arguments = some (Json.str s)) ∧
     ((normaliseMsg c8Msg).role = Json.str "tool" →
       (∃ s, (normaliseMsg c8Msg).name = some (Json.str s)) ∧
       ∃ s, (normaliseMsg c8Msg).content = some (Json.str s))) :=
  ⟨List.mem_singleton.mpr rfl,
   c8_normalised_messages_are_strings [c8Msg] (normaliseMsg c8Msg)
     (List.mem_singleton.mpr rfl)⟩

/-- C10 — for an empty conversation (which is also what the store loads
for a nonexistent conversation id), `_handle_completion` raises
`Conversation is empty.` before calling the Model Client or appending
any entry — the outcome is the same for every client — and the worker
reports the task `failed`. -/
theorem c10_empty_conversation_fails_before_client (chat : ChatFun)
    (registry : ToolRegistry) (sp : String) (agent : Option String)
    (model : String) (now : String) (supply : Nat) :
    handleCompletion chat registry [] sp agent model now supply
      = { result := .error "Conversation is empty.",
          appended := [], chatCalls := 0 } ∧
    workerStatusFor (handleCompletion chat registry [] sp agent model now supply)
      = "failed" :=
  ⟨rfl, rfl⟩

/-- C2 counterexample: with the canned one-tool-call client and the
`ping` registry, the run fails with the bound message after appending 4
`completion` entries — but also 4 (not 3) `tool_result` entries: the
4th iteration executes its tool calls before the bound check fires. -/
theorem c2_counterexample :
    countCompletions c2Out.appended = 4 ∧
    countToolResults c2Out.appended = 4 ∧
    ¬ countToolResults c2Out.appended = 3 ∧
    c2Out.result = .error "Tool call loop exceeded max iterations." := by
  have h4 : countToolResults c2Out.appended = 4 := rfl
  refine ⟨rfl, h4, ?_, rfl⟩
  intro h3
  exact absurd (h4.symm.trans h3) (by decide)

theorem formatCalls_length (l : List Json) :
    ∀ s : Nat, (formatCalls s l).1.length = l.length := by
  induction l with
  | nil => intro s; rfl
  | cons c rest ih =>
      intro s
      simp only [formatCalls]
      rw [List.length_cons, ih]
      rfl

theorem countCompletions_append (a b : List Entry) :
    countCompletions (a ++ b) = countCompletions a + countCompletions b := by
  simp [countCompletions, List.filter_append]

theorem countToolResults_append (a b : List Entry) :
    countToolResults (a ++ b) = countToolResults a + countToolResults b := by
  simp [countToolResults, List.filter_append]

theorem execCalls_entries_kinds (registry : ToolRegistry) (now : String) :
    ∀ (calls : List FormattedCall) (s : Nat),
      ∀ e ∈ (execCalls registry now calls s).1,
        isCompletionEntry e = false ∧ isToolResultEntry e = true := by
  intro calls
  induction calls with
  | nil => intro s e he; cases he
  | cons call rest ih =>
      intro s e he
      rw [execCalls] at he
      rcases hx : registryExecute registry call.name
          (if pyTruthy call.arguments then call.arguments else Json.obj []) with msg | result
      · rw [hx] at he
        simp at he
      · rw [hx] at he
        dsimp only at he
        rcases List.mem_cons.mp he with rfl | he2
        · exact ⟨rfl, rfl⟩
        · exact ih (s + 1) e he2

theorem execCalls_length_of_none (registry : ToolRegistry) (now : String) :
    ∀ (calls : List FormattedCall) (s : Nat),
      (execCalls registry now calls s).2.2 = none →
      (execCalls registry now calls s).1.length = calls.length := by
  intro calls
  induction calls with
  | nil => intro s _; rfl
  | cons call rest ih =>
      intro s hn
      rw [execCalls] at hn
      rw [execCalls]
      rcases hx : registryExecute registry call.name
          (if pyTruthy call.arguments then call.arguments else Json.obj []) with msg | result
      · rw [hx] at hn
        simp at hn
      · rw [hx] at hn
        dsimp only at hn ⊢
        simp [ih (s + 1) hn]

theorem countCompletions_execCalls (registry : ToolRegistry) (now : String)
    (calls : List FormattedCall) (s : Nat) :
    countCompletions (execCalls registry now calls s).1 = 0 := by
  rw [countCompletions]
  rw [List.length_eq_zero]
  rw [List.filter_eq_nil]
  intro e he
  rw [(execCalls_entries_kinds registry now calls s e he).1]
  exact Bool.false_ne_true

theorem countToolResults_execCalls_of_none (registry : ToolRegistry)
    (now : String) (calls : List FormattedCall) (s : Nat)
    (hn : (execCalls registry now calls s).2.2 = none) :
    countToolResults (execCalls registry now calls s).1 = calls.length := by
  rw [countToolResults]
  have : (execCalls registry now calls s).1.filter isToolResultEntry
      = (execCalls registry now calls s).1 := by
    rw [List.filter_eq_self]
    intro e he
    exact (execCalls_entries_kinds registry now calls s e he).2
  rw [this]
  exact execCalls_length_of_none registry now calls s hn

theorem countCompletions_completionEntry (s : Nat) (now : String)
    (a : Option String) (m t : String) (r rc : List String)
    (f : List FormattedCall) :
    countCompletions [completionEntry s now a m t r rc f] = 1 := rfl

theorem countToolResults_completionEntry (s : Nat) (now : String)
    (a : Option String) (m t : String) (r rc : List String)
    (f : List FormattedCall) :
    countToolResults [completionEntry s now a m t r rc f] = 0 := rfl

theorem completionLoop_all_tool_calls (chat : ChatFun)
    (registry : ToolRegistry) (sp : String) (agent : Option String)
    (model : String) (now : String) (resp : Json)
    (H1 : ∀ ms, chat ms = .ok resp)
    (H2 : respToolCallsRaw resp ≠ [])
    (H3 : ∀ s s2,
      (execCalls registry now (formatCalls s (respToolCallsRaw resp)).1 s2).2.2
        = none) :
    ∀ (n : Nat) (conversation acc : List Entry) (supply : Nat)
      (lastId : Option String) (calls : Nat),
      (completionLoopF chat registry sp agent model now
          n conversation acc supply lastId calls).result
        = .error "Tool call loop exceeded max iterations." ∧
      countCompletions (completionLoopF chat registry sp agent model now
          n conversation acc supply lastId calls).appended
        = countCompletions acc + n ∧
      countToolResults (completionLoopF chat registry sp agent model now
          n conversation acc supply lastId calls).appended
        = countToolResults acc + n * (respToolCallsRaw resp).length := by
  intro n
  induction n with
  | zero =>
      intro conversation acc supply lastId calls
      refine ⟨rfl, by simp [completionLoopF], by simp [completionLoopF]⟩
  | succ n ih =>
      intro conversation acc supply lastId calls
      have hchat := H1 (normaliseMessages
        (buildMessageHistory conversation sp supply).1)
      have hfmtlen : (formatCalls (buildMessageHistory conversation sp supply).2.2
          (respToolCallsRaw resp)).1.length = (respToolCallsRaw resp).length :=
        formatCalls_length _ _
      have hfmtne : (formatCalls (buildMessageHistory conversation sp supply).2.2
          (respToolCallsRaw resp)).1.isEmpty = false := by
        cases hf : (formatCalls (buildMessageHistory conversation sp supply).2.2
            (respToolCallsRaw resp)).1 with
        | nil =>
            exfalso
            rw [hf] at hfmtlen
            exact H2 (List.length_eq_zero.mp hfmtlen.symm)
        | cons x xs => rfl
      have hexec := H3 (buildMessageHistory conversation sp supply).2.2
        ((formatCalls (buildMessageHistory conversation sp supply).2.2
          (respToolCallsRaw resp)).2 + 1)
      simp only [completionLoopF, hchat, hfmtne, hexec]
      rw [if_neg Bool.false_ne_true]
      refine ⟨(ih _ _ _ _ _).1, ?_, ?_⟩
      · rw [(ih _ _ _ _ _).2.1]
        rw [countCompletions_append, countCompletions_append]
        rw [countCompletions_execCalls]
        rw [countCompletions_completionEntry]
        omega
      · rw [(ih _ _ _ _ _).2.2]
        rw [countToolResults_append, countToolResults_append]
        rw [countToolResults_execCalls_of_none _ _ _ _ hexec]
        rw [countToolResults_completionEntry]
        rw [hfmtlen]
        rw [Nat.succ_mul]
        omega

/-- C2 amended: when the Model Client returns exactly one tool call on
every turn against a registry containing that tool, the loop performs
exactly 4 iterations and the task fails with the iteration-bound message;
at that point exactly 4 `completion` entries AND exactly 4 `tool_result`
entries have been appended — the 4th iteration's tool calls are executed
before the bound check fires, so 4 (not 3) tool results exist. -/
theorem c2_amended_four_completions_four_tool_results (chat : ChatFun)
    (registry : ToolRegistry) (sp : String) (agent : Option String)
    (model : String) (now : String) (resp : Json)
    (conversation : List Entry) (supply : Nat)
    (hconv : conversation ≠ [])
    (H1 : ∀ ms, chat ms = .ok resp)
    (Hlen : (respToolCallsRaw resp).length = 1)
    (H3 : ∀ s s2,
      (execCalls registry now (formatCalls s (respToolCallsRaw resp)).1 s2).2.2
        = none) :
    (handleCompletion chat registry conversation sp agent model now supply).result
      = .error "Tool call loop exceeded max iterations." ∧
    countCompletions
        (handleCompletion chat registry conversation sp agent model now supply).appended
      = 4 ∧
    countToolResults
        (handleCompletion chat registry conversation sp agent model now supply).appended
      = 4 ∧
    workerStatusFor
        (handleCompletion chat registry conversation sp agent model now supply)
      = "failed" := by
  have H2 : respToolCallsRaw resp ≠ [] := by
    intro h
    rw [h] at Hlen
    simp at Hlen
  have hne : conversation.isEmpty = false := by
    cases conversation with
    | nil => exact absurd rfl hconv
    | cons a l => rfl
  have hloop := completionLoop_all_tool_calls chat registry sp agent model now
    resp H1 H2 H3 4 conversation [] supply none 0
  have hhc : handleCompletion chat registry conversation sp agent model now supply
      = completionLoopF chat registry sp agent model now 4 conversation [] supply none 0 := by
    rw [handleCompletion, hne]
    rw [if_neg Bool.false_ne_true]
  rw [hhc]
  refine ⟨hloop.1, ?_, ?_, ?_⟩
  · rw [hloop.2.1]
    rfl
  · rw [hloop.2.2, Hlen]
    rfl
  · rw [workerStatusFor, hloop.1]

theorem c2_witness :
    c2Conv ≠ [] ∧
    (∀ ms, c2Chat ms = .ok c2Resp) ∧
    (respToolCallsRaw c2Resp).length = 1 ∧
    (∀ s s2,
      (execCalls pingRegistry "t1" (formatCalls s (respToolCallsRaw c2Resp)).1 s2).2.2
        = none) ∧
    (c2Out.result = .error "Tool call loop exceeded max iterations." ∧
      countCompletions c2Out.appended = 4 ∧
      countToolResults c2Out.appended = 4 ∧
      workerStatusFor c2Out = "failed") :=
  ⟨List.cons_ne_nil _ _, fun _ => rfl, rfl, fun _ _ => rfl,
   c2_amended_four_completions_four_tool_results c2Chat pingRegistry "sys"
     (some "default") "model-x" "t1" c2Resp c2Conv 0
     (List.cons_ne_nil _ _) (fun _ => rfl) rfl (fun _ _ => rfl)⟩
